import Mathlib

set_option maxRecDepth 100000

/-!
Verification of the storage migration and integrity engine
(machina-shared storage module: schema state store, session log,
migration engine with crash recovery, integrity checker, compaction).

The TypeScript source is shallowly embedded as follows:
* JSON values are the inductive type `Json` (numbers are modelled as `Int`;
  the engine and its fixtures only ever serialize integer numbers).
* `JSON.stringify` is `printJsonChars` (compact form, insertion-order keys)
  and, for the schema-state file, the fixed-shape two-space-indented
  template `schemaStatePretty` that `JSON.stringify(value, null, 2)`
  produces for a `SchemaState` object.
* `JSON.parse` is `parseJson`, a fuel-based recursive-descent parser.
  It accepts integer numbers (no float or exponent forms) and the
  single-character escapes; `\uXXXX` escapes are not modelled.  All
  content the engine itself writes, and every concrete input used in the
  theorems below, stays inside this fragment.
* The filesystem is the record `Store`: the three files of a storage root
  (session log, schema-state file, backup file), each `Option String`
  (`none` = the file does not exist).  Writes via temp-file-plus-rename
  are modelled as direct replacement of the file content, which is the
  atomicity guarantee they exist to provide.  Paths outside the three
  fixed files of the root resolve to "missing" — the engine only ever
  addresses those three paths.  The ghost field `stateWrites` records
  every schema state the engine writes, in order, so that invariants
  about "every state ever written" can be stated.
* `new Date().toISOString()` is modelled as an explicit `now : String`
  argument (one timestamp per engine call).
* `createHash("sha256")` is a full executable SHA-256 over the UTF-8
  bytes of the serialized record, `sha256Hex`.
-/

/-- A JSON value as produced by JSON.parse / consumed by JSON.stringify.
Object members keep their textual/insertion order. -/
inductive Json where
  | null : Json
  | bool : Bool → Json
  | num : Int → Json
  | str : String → Json
  | arr : List Json → Json
  | obj : List (String × Json) → Json

/-- Decimal digits of a natural number (fuel-based so that it is
structurally recursive and kernel-reducible). -/
def natToDigitsAux : Nat → Nat → List Char
  | 0, _ => []
  | Nat.succ fuel, n =>
    if n < 10 then [Char.ofNat (48 + n)]
    else natToDigitsAux fuel (n / 10) ++ [Char.ofNat (48 + n % 10)]

def natToDigits (n : Nat) : List Char := natToDigitsAux (n + 1) n

/-- Decimal rendering of an integer, as JSON.stringify renders the
integral numbers the engine works with. -/
def intToChars (n : Int) : List Char :=
  if n < 0 then '-' :: natToDigits n.natAbs else natToDigits n.toNat

/-- Hex digit for a nibble. -/
def hexDigitChar (n : Nat) : Char := Char.ofNat (if n < 10 then 48 + n else 87 + n)

/-- JSON.stringify escaping of a single character inside a string
literal. -/
def escapeChar (c : Char) : List Char :=
  if c = '"' then ['\\', '"']
  else if c = '\\' then ['\\', '\\']
  else if c = '\n' then ['\\', 'n']
  else if c = '\r' then ['\\', 'r']
  else if c = '\t' then ['\\', 't']
  else if c = '\x08' then ['\\', 'b']
  else if c = '\x0c' then ['\\', 'f']
  else if c.toNat < 32 then ['\\', 'u', '0', '0', hexDigitChar (c.toNat / 16), hexDigitChar (c.toNat % 16)]
  else [c]

def escapeList : List Char → List Char
  | [] => []
  | c :: rest => escapeChar c ++ escapeList rest

/-- JSON.stringify of a string: quoted, escaped. -/
def quoteChars (s : String) : List Char := '"' :: escapeList s.data ++ ['"']

mutual

/-- JSON.stringify (compact form: no added whitespace, members in
insertion order). -/
def printJsonChars : Json → List Char
  | .null => 'n' :: ['u', 'l', 'l']
  | .bool true => 't' :: ['r', 'u', 'e']
  | .bool false => 'f' :: ['a', 'l', 's', 'e']
  | .num n => intToChars n
  | .str s => quoteChars s
  | .arr xs => '[' :: printArrChars xs ++ [']']
  | .obj kvs => '\x7b' :: printObjChars kvs ++ ['\x7d']

def printArrChars : List Json → List Char
  | [] => []
  | [x] => printJsonChars x
  | x :: y :: rest => printJsonChars x ++ ',' :: printArrChars (y :: rest)

def printObjChars : List (String × Json) → List Char
  | [] => []
  | [(k, v)] => quoteChars k ++ ':' :: printJsonChars v
  | (k, v) :: m :: rest => quoteChars k ++ ':' :: printJsonChars v ++ ',' :: printObjChars (m :: rest)

end

def printJson (j : Json) : String := String.mk (printJsonChars j)

/-- The whitespace JSON.parse skips between tokens. -/
def isJsonWs (c : Char) : Bool := c = ' ' || c = '\t' || c = '\n' || c = '\r'

def skipWs : List Char → List Char
  | [] => []
  | c :: rest => if isJsonWs c then skipWs rest else c :: rest

/-- Inverse of the single-character escapes. -/
def unescapeChar (c : Char) : Option Char :=
  if c = '"' then some '"'
  else if c = '\\' then some '\\'
  else if c = '/' then some '/'
  else if c = 'n' then some '\n'
  else if c = 'r' then some '\r'
  else if c = 't' then some '\t'
  else if c = 'b' then some '\x08'
  else if c = 'f' then some '\x0c'
  else none

mutual

/-- Parse the body of a JSON string literal (after the opening quote),
returning the decoded characters and the remainder after the closing
quote. -/
def parseStrBody : List Char → Option (List Char × List Char)
  | [] => none
  | c :: rest =>
    if c = '"' then some ([], rest)
    else if c = '\\' then parseStrEsc rest
    else
      match parseStrBody rest with
      | none => none
      | some (chars, rem) => some (c :: chars, rem)

/-- Continue a string-literal body after a backslash. -/
def parseStrEsc : List Char → Option (List Char × List Char)
  | [] => none
  | e :: rest2 =>
    match unescapeChar e, parseStrBody rest2 with
    | some u, some (chars, rem) => some (u :: chars, rem)
    | _, _ => none

end

def isDigitCh (c : Char) : Bool := 48 ≤ c.toNat && c.toNat ≤ 57

def takeDigits : List Char → List Char × List Char
  | [] => ([], [])
  | c :: rest =>
    if isDigitCh c then
      match takeDigits rest with
      | (ds, rem) => (c :: ds, rem)
    else ([], c :: rest)

def digitsVal : List Char → Nat → Nat
  | [], acc => acc
  | c :: rest, acc => digitsVal rest (acc * 10 + (c.toNat - 48))

/-- Expect a fixed sequence of characters (the tails of the literals
null/true/false), returning the remainder. -/
def expectChars : List Char → List Char → Option (List Char)
  | [], rest => some rest
  | _ :: _, [] => none
  | e :: es, c :: rest => if c = e then expectChars es rest else none

mutual

/-- Recursive-descent JSON value parser (fuel bounds the recursion
into nested arrays/objects). -/
def parseVal : Nat → List Char → Option (Json × List Char)
  | 0, _ => none
  | Nat.succ fuel, cs0 =>
    match skipWs cs0 with
    | [] => none
    | c :: rest =>
      if c = '"' then
        match parseStrBody rest with
        | some (chars, rem) => some (.str (String.mk chars), rem)
        | none => none
      else if c = '[' then
        match skipWs rest with
        | [] => none
        | c1 :: rest1 =>
          if c1 = ']' then some (.arr [], rest1)
          else
            match parseArrItems fuel (c1 :: rest1) with
            | some (xs, rem) => some (.arr xs, rem)
            | none => none
      else if c = '\x7b' then
        match skipWs rest with
        | [] => none
        | c1 :: rest1 =>
          if c1 = '\x7d' then some (.obj [], rest1)
          else
            match parseObjItems fuel (c1 :: rest1) with
            | some (kvs, rem) => some (.obj kvs, rem)
            | none => none
      else if c = 'n' then
        match expectChars ['u', 'l', 'l'] rest with
        | some rem => some (.null, rem)
        | none => none
      else if c = 't' then
        match expectChars ['r', 'u', 'e'] rest with
        | some rem => some (.bool true, rem)
        | none => none
      else if c = 'f' then
        match expectChars ['a', 'l', 's', 'e'] rest with
        | some rem => some (.bool false, rem)
        | none => none
      else if c = '-' then
        match takeDigits rest with
        | ([], _) => none
        | (d :: ds, rem) => some (.num (-(Int.ofNat (digitsVal (d :: ds) 0))), rem)
      else if isDigitCh c then
        match takeDigits rest with
        | (ds, rem) => some (.num (Int.ofNat (digitsVal (c :: ds) 0)), rem)
      else none

/-- One or more comma-separated array items, consuming the closing
bracket. -/
def parseArrItems : Nat → List Char → Option (List Json × List Char)
  | 0, _ => none
  | Nat.succ fuel, cs =>
    match parseVal fuel cs with
    | none => none
    | some (x, rem) =>
      match skipWs rem with
      | [] => none
      | c :: rest =>
        if c = ',' then
          match parseArrItems fuel rest with
          | some (xs, rem2) => some (x :: xs, rem2)
          | none => none
        else if c = ']' then some ([x], rest)
        else none

/-- One or more comma-separated object members, consuming the closing
brace. -/
def parseObjItems : Nat → List Char → Option (List (String × Json) × List Char)
  | 0, _ => none
  | Nat.succ fuel, cs =>
    match skipWs cs with
    | [] => none
    | c :: rest =>
      if c = '"' then
        match parseStrBody rest with
        | none => none
        | some (kchars, rem) =>
          match skipWs rem with
          | [] => none
          | c1 :: rest1 =>
            if c1 = ':' then
              match parseVal fuel rest1 with
              | none => none
              | some (v, rem2) =>
                match skipWs rem2 with
                | [] => none
                | c2 :: rest2 =>
                  if c2 = ',' then
                    match parseObjItems fuel rest2 with
                    | some (kvs, rem3) => some ((String.mk kchars, v) :: kvs, rem3)
                    | none => none
                  else if c2 = '\x7d' then some ([(String.mk kchars, v)], rest2)
                  else none
            else none
      else none

end

/-- JSON.parse: parse one value and require only whitespace to remain.
Returns none where JSON.parse throws a SyntaxError. -/
def parseJson (content : String) : Option Json :=
  let cs := content.data
  match parseVal (cs.length + 1) cs with
  | some (j, rem) => if skipWs rem = [] then some j else none
  | none => none

example : parseJson "\x7b\"a\": [1, -2, null], \"b\": \"x\"\x7d" =
    some (.obj [("a", .arr [.num 1, .num (-2), .null]), ("b", .str "x")]) := by
  rfl

example : printJson (.obj [("a", .arr [.num 1, .num (-2), .null]), ("b", .str "x")]) =
    "\x7b\"a\":[1,-2,null],\"b\":\"x\"\x7d" := by rfl

example : parseJson "not-json" = none := by rfl

/-! ## SHA-256 (the `createHash("sha256")` content hash)

A direct executable SHA-256 over the UTF-8 bytes of the serialized
record, producing the lowercase hex digest.  32-bit words are `Nat`
values reduced mod 2^32 at every operation. -/

def rotr32 (n x : Nat) : Nat := ((x >>> n) ||| (x <<< (32 - n))) % 4294967296

def bigSigma0 (x : Nat) : Nat := (rotr32 2 x) ^^^ (rotr32 13 x) ^^^ (rotr32 22 x)
def bigSigma1 (x : Nat) : Nat := (rotr32 6 x) ^^^ (rotr32 11 x) ^^^ (rotr32 25 x)
def smallSigma0 (x : Nat) : Nat := (rotr32 7 x) ^^^ (rotr32 18 x) ^^^ (x >>> 3)
def smallSigma1 (x : Nat) : Nat := (rotr32 17 x) ^^^ (rotr32 19 x) ^^^ (x >>> 10)

def shaK : List Nat := [
  1116352408, 1899447441, 3049323471, 3921009573, 961987163, 1508970993, 2453635748, 2870763221,
  3624381080, 310598401, 607225278, 1426881987, 1925078388, 2162078206, 2614888103, 3248222580,
  3835390401, 4022224774, 264347078, 604807628, 770255983, 1249150122, 1555081692, 1996064986,
  2554220882, 2821834349, 2952996808, 3210313671, 3336571891, 3584528711, 113926993, 338241895,
  666307205, 773529912, 1294757372, 1396182291, 1695183700, 1986661051, 2177026350, 2456956037,
  2730485921, 2820302411, 3259730800, 3345764771, 3516065817, 3600352804, 4094571909, 275423344,
  430227734, 506948616, 659060556, 883997877, 958139571, 1322822218, 1537002063, 1747873779,
  1955562222, 2024104815, 2227730452, 2361852424, 2428436474, 2756734187, 3204031479, 3329325298]

/-- Big-endian 32-bit words from a 64-byte chunk. -/
def chunkWords : List Nat → List Nat
  | b0 :: b1 :: b2 :: b3 :: rest => (((b0 * 256 + b1) * 256 + b2) * 256 + b3) :: chunkWords rest
  | _ => []

/-- Message-schedule extension from 16 to 64 words. -/
def extendWords (fuel : Nat) (w : List Nat) : List Nat :=
  match fuel with
  | 0 => w
  | Nat.succ f =>
    let n := w.length
    let w2 := w.getD (n - 2) 0
    let w7 := w.getD (n - 7) 0
    let w15 := w.getD (n - 15) 0
    let w16 := w.getD (n - 16) 0
    extendWords f (w ++ [(smallSigma1 w2 + w7 + smallSigma0 w15 + w16) % 4294967296])

def compressRound (state : Nat × Nat × Nat × Nat × Nat × Nat × Nat × Nat) (kw : Nat × Nat) :
    Nat × Nat × Nat × Nat × Nat × Nat × Nat × Nat :=
  let (a, b, c, d, e, f, g, h) := state
  let (k, w) := kw
  let t1 := (h + bigSigma1 e + ((e &&& f) ^^^ ((4294967295 - e) &&& g)) + k + w) % 4294967296
  let t2 := (bigSigma0 a + ((a &&& b) ^^^ (a &&& c) ^^^ (b &&& c))) % 4294967296
  ((t1 + t2) % 4294967296, a, b, c, (d + t1) % 4294967296, e, f, g)

def processChunk (h : List Nat) (chunk : List Nat) : List Nat :=
  let w := extendWords 48 (chunkWords chunk)
  let init := (h.getD 0 0, h.getD 1 0, h.getD 2 0, h.getD 3 0, h.getD 4 0, h.getD 5 0, h.getD 6 0, h.getD 7 0)
  let (a, b, c, d, e, f, g, hh) := (shaK.zip w).foldl compressRound init
  [(h.getD 0 0 + a) % 4294967296, (h.getD 1 0 + b) % 4294967296, (h.getD 2 0 + c) % 4294967296,
   (h.getD 3 0 + d) % 4294967296, (h.getD 4 0 + e) % 4294967296, (h.getD 5 0 + f) % 4294967296,
   (h.getD 6 0 + g) % 4294967296, (h.getD 7 0 + hh) % 4294967296]

def splitChunks (fuel : Nat) (bytes : List Nat) : List (List Nat) :=
  match fuel, bytes with
  | 0, _ => []
  | _, [] => []
  | Nat.succ f, bytes => (bytes.take 64) :: splitChunks f (bytes.drop 64)

/-- Big-endian fixed-width byte rendering of a natural number. -/
def natBytesBE (count : Nat) (n : Nat) : List Nat :=
  match count with
  | 0 => []
  | Nat.succ c => natBytesBE c (n / 256) ++ [n % 256]

/-- SHA-256 padding: 128, zeros to 56 mod 64, then the bit length as a
64-bit big-endian integer. -/
def padMessage (bytes : List Nat) : List Nat :=
  let len := bytes.length
  let k := (119 - (len % 64)) % 64
  bytes ++ [128] ++ List.replicate k 0 ++ natBytesBE 8 (8 * len)

def shaInit : List Nat := [1779033703, 3144134277, 1013904242, 2773480762, 1359893119, 2600822924, 528734635, 1541459225]

def sha256Words (bytes : List Nat) : List Nat :=
  let padded := padMessage bytes
  (splitChunks (padded.length / 64 + 1) padded).foldl processChunk shaInit

def natHex8 (n : Nat) : List Char :=
  [hexDigitChar (n / 268435456 % 16), hexDigitChar (n / 16777216 % 16), hexDigitChar (n / 1048576 % 16),
   hexDigitChar (n / 65536 % 16), hexDigitChar (n / 4096 % 16), hexDigitChar (n / 256 % 16),
   hexDigitChar (n / 16 % 16), hexDigitChar (n % 16)]

/-- UTF-8 bytes of a character. -/
def utf8Encode (c : Char) : List Nat :=
  let n := c.toNat
  if n < 128 then [n]
  else if n < 2048 then [192 + n / 64, 128 + n % 64]
  else if n < 65536 then [224 + n / 4096, 128 + n / 64 % 64, 128 + n % 64]
  else [240 + n / 262144, 128 + n / 4096 % 64, 128 + n / 64 % 64, 128 + n % 64]

def strBytes (s : String) : List Nat := s.data.flatMap utf8Encode

/-- Lowercase hex SHA-256 digest of a string, as
createHash("sha256").update(s).digest("hex") produces. -/
def sha256Hex (s : String) : String := String.mk ((sha256Words (strBytes s)).flatMap natHex8)

example : sha256Hex "abc" = "ba7816bf8f01cfea414140de5dae2223b00361a396177a9cb410ff61f20015ad" := by
  rfl

/-! ## Canonical (key-sorted) serialization — `stableStringify` -/

/-- Lexicographic code-point comparison of key strings, standing in for
the localeCompare comparator — the two agree on the all-lowercase ASCII
keys the engine sorts. -/
def charListLe : List Char → List Char → Bool
  | [], _ => true
  | _ :: _, [] => false
  | a :: as, b :: bs =>
    if a.toNat < b.toNat then true
    else if b.toNat < a.toNat then false
    else charListLe as bs

/-- Insert a serialized member into a key-sorted serialized member list
(the model of the stable Array.prototype.sort over Object.entries). -/
def insertByKey (kv : String × List Char) : List (String × List Char) → List (String × List Char)
  | [] => [kv]
  | m :: rest => if charListLe kv.1.data m.1.data then kv :: m :: rest else m :: insertByKey kv rest

def sortByKey : List (String × List Char) → List (String × List Char)
  | [] => []
  | kv :: rest => insertByKey kv (sortByKey rest)

/-- Join serialized object members: quoted key, colon, serialized value,
comma-separated. -/
def joinMembers : List (String × List Char) → List Char
  | [] => []
  | [(k, v)] => quoteChars k ++ ':' :: v
  | (k, v) :: m :: rest => quoteChars k ++ ':' :: v ++ ',' :: joinMembers (m :: rest)

mutual

/-- `stableStringify`: JSON serialization with object keys sorted at
every level, making the checksum independent of field insertion order.
The source sorts the entries and then serializes each value; here each
value is serialized first and the serialized members are then sorted by
key, which commutes (sorting only inspects keys). -/
def stableChars : Json → List Char
  | .null => 'n' :: ['u', 'l', 'l']
  | .bool true => 't' :: ['r', 'u', 'e']
  | .bool false => 'f' :: ['a', 'l', 's', 'e']
  | .num n => intToChars n
  | .str s => quoteChars s
  | .arr xs => '[' :: stableArrChars xs ++ [']']
  | .obj kvs => '\x7b' :: joinMembers (sortByKey (stableMembers kvs)) ++ ['\x7d']

def stableArrChars : List Json → List Char
  | [] => []
  | [x] => stableChars x
  | x :: y :: rest => stableChars x ++ ',' :: stableArrChars (y :: rest)

def stableMembers : List (String × Json) → List (String × List Char)
  | [] => []
  | (k, v) :: rest => (k, stableChars v) :: stableMembers rest

end

def stableStringify (j : Json) : String := String.mk (stableChars j)

/-- `computeChecksum(id, updatedAt, payload, deleted)`: the SHA-256 hex
digest of the canonical serialization of the object
`{id, updatedAt, payload, deleted}` (keys listed in the source's
insertion order; `stableStringify` sorts them). -/
def computeChecksum (id updatedAt : String) (payload : Json) (deleted : Bool) : String :=
  sha256Hex (stableStringify (.obj
    [("id", .str id), ("updatedAt", .str updatedAt), ("payload", payload), ("deleted", .bool deleted)]))

example : stableStringify (.obj
    [("id", .str "a"), ("updatedAt", .str "t"), ("payload", .obj [("topic", .str "x")]), ("deleted", .bool false)]) =
    "\x7b\"deleted\":false,\"id\":\"a\",\"payload\":\x7b\"topic\":\"x\"\x7d,\"updatedAt\":\"t\"\x7d" := by
  rfl

/-! ## Data model -/

def CURRENT_SCHEMA_VERSION : Int := 2

inductive SchemaStateStatus where
  | ready : SchemaStateStatus
  | migrating : SchemaStateStatus
deriving DecidableEq, Repr

/-- The schema-state record (`schema-state.json`). -/
structure SchemaState where
  schemaVersion : Int
  status : SchemaStateStatus
  targetVersion : Option Int
  migrationId : Option String
  backupPath : Option String
  updatedAt : String
deriving DecidableEq, Repr

/-- A session record.  The TypeScript type declares `payload: unknown`
(here: any `Json` value; the model requires the field to be present),
`deleted?: boolean` and `checksum?: string`; the optional fields are
modelled at their declared types, `none` meaning absent. -/
structure SessionRecord where
  id : String
  updatedAt : String
  payload : Json
  deleted : Option Bool
  checksum : Option String

/-- Error codes of `MachinaStorageError`, plus `jsonSyntaxError` for a
raw JSON.parse SyntaxError escaping `readSchemaState` and `fsError` for
a raw filesystem error (reading a file that does not exist outside the
guarded paths).  `migrationInterrupted` is the injected
`MIGRATION_INTERRUPTED` failure, which the step's catch block converts
to `migrationFailed`. -/
inductive StorageError where
  | storageHomeMissing : StorageError
  | schemaStateInvalid : StorageError
  | sessionParseFailed : Nat → StorageError
  | jsonSyntaxError : StorageError
  | fsError : StorageError
  | migrationTargetUnsupported : StorageError
  | migrationDowngradeBlocked : StorageError
  | migrationPathMissing : StorageError
  | migrationFailed : StorageError
  | migrationRecoveryFailed : StorageError
  | migrationInterrupted : StorageError
deriving DecidableEq, Repr

structure MigrationRunOptions where
  targetVersion : Option Int := none
  interruptAfterStateWrite : Bool := false

structure MigrationRunResult where
  status : String
  fromVersion : Int
  toVersion : Int
  recovered : Bool
  applied : List String
deriving DecidableEq, Repr

structure IntegrityIssue where
  code : String
  message : String
  line : Option Nat
deriving DecidableEq, Repr

structure IntegrityReport where
  healthy : Bool
  schemaVersion : Int
  issueCount : Nat
  issues : List IntegrityIssue
deriving DecidableEq, Repr

structure CompactionReport where
  before : Nat
  after : Nat
  removed : Nat
deriving DecidableEq, Repr

/-- The fixed file paths beneath a storage root (`getStoragePaths`;
`path.join` is modelled as separator concatenation). -/
structure StoragePaths where
  rootDir : String
  sessionsFile : String
  schemaStateFile : String
  backupFile : String
deriving DecidableEq, Repr

def getStoragePaths (rootDir : String) : StoragePaths where
  rootDir := rootDir
  sessionsFile := rootDir ++ "/sessions.jsonl"
  schemaStateFile := rootDir ++ "/schema-state.json"
  backupFile := rootDir ++ "/sessions.backup.jsonl"

/-- The filesystem state of one storage root: the contents of the three
files (`none` = missing), plus the ghost trace `stateWrites` of every
schema state the engine has written (newest last), used to state
invariants about all written states. -/
structure Store where
  sessions : Option String
  schemaState : Option String
  backup : Option String
  stateWrites : List SchemaState
deriving DecidableEq, Repr

/-- `fileExists` / `readFile`: resolve a path against the three files of
the root.  Any other path — which the engine never addresses — is
treated as missing. -/
def fileContentAt (paths : StoragePaths) (s : Store) (p : String) : Option String :=
  if p = paths.sessionsFile then s.sessions
  else if p = paths.schemaStateFile then s.schemaState
  else if p = paths.backupFile then s.backup
  else none

/-- `writeFile`/`writeTextAtomic` (write-to-temp-then-rename modelled as
direct replacement): set a file's content.  Writes to paths outside the
root's three files are ignored (the engine never performs any). -/
def writeFileAt (paths : StoragePaths) (s : Store) (p : String) (content : String) : Store :=
  if p = paths.sessionsFile then { s with sessions := some content }
  else if p = paths.schemaStateFile then { s with schemaState := some content }
  else if p = paths.backupFile then { s with backup := some content }
  else s

/-- `rm` via `deleteIfExists`. -/
def deleteFileAt (paths : StoragePaths) (s : Store) (p : String) : Store :=
  if p = paths.sessionsFile then { s with sessions := none }
  else if p = paths.schemaStateFile then { s with schemaState := none }
  else if p = paths.backupFile then { s with backup := none }
  else s

/-! ## Serialization of records and schema state -/

/-- The JSON object a normalized `SessionRecord` stringifies as: keys in
the insertion order of the source's object literal (`id`, `updatedAt`,
`payload`, then `deleted` and `checksum` when present; JSON.stringify
omits `undefined` members). -/
def recordToJson (r : SessionRecord) : Json :=
  .obj ([("id", .str r.id), ("updatedAt", .str r.updatedAt), ("payload", r.payload)]
    ++ (match r.deleted with
        | none => []
        | some b => [("deleted", .bool b)])
    ++ (match r.checksum with
        | none => []
        | some c => [("checksum", .str c)]))

/-- One line of the session log: `JSON.stringify(record)`. -/
def recordLineChars (r : SessionRecord) : List Char := printJsonChars (recordToJson r)

/-- `writeSessionsAtomic` content: one record per line, with a trailing
newline iff there is at least one record. -/
def sessionsJoin : List SessionRecord → List Char
  | [] => []
  | [r] => recordLineChars r
  | r :: r2 :: rest => recordLineChars r ++ '\n' :: sessionsJoin (r2 :: rest)

def sessionsContent (records : List SessionRecord) : String :=
  match records with
  | [] => ""
  | _ => String.mk (sessionsJoin records ++ ['\n'])

/-- Whitespace for String.prototype.trim (the ASCII whitespace the
engine can meet; trim also strips some unicode space characters, which
never occur here). -/
def isTrimWs (c : Char) : Bool :=
  c = ' ' || c = '\t' || c = '\n' || c = '\r' || c = '\x0b' || c = '\x0c'

def dropLeadingWs : List Char → List Char
  | [] => []
  | c :: rest => if isTrimWs c then dropLeadingWs rest else c :: rest

def trimChars (l : List Char) : List Char := (dropLeadingWs (dropLeadingWs l.reverse).reverse)

def trimStr (s : String) : String := String.mk (trimChars s.data)

/-- Split on a newline separator, as String.prototype.split("\n"). -/
def splitOnNl : List Char → List (List Char)
  | [] => [[]]
  | c :: rest =>
    if c = '\n' then [] :: splitOnNl rest
    else
      match splitOnNl rest with
      | [] => [[c]]
      | l :: ls => (c :: l) :: ls

/-- The non-empty trimmed lines of the session log
(`content.split("\n").map(trim).filter(nonempty)`). -/
def sessionLines (content : String) : List (List Char) :=
  ((splitOnNl content.data).map trimChars).filter (fun l => decide (l ≠ []))

/-- Reading one parsed line as a `SessionRecord`: the source casts the
parsed object and only checks that `id` and `updatedAt` are strings.
The model additionally reads the remaining fields at their declared
types (`payload` present; `deleted` boolean or absent/null; `checksum`
string or absent/null), which covers every record the engine writes and
every input exercised below. -/
def lookupField : List (String × Json) → String → Option Json
  | [], _ => none
  | (k, v) :: rest, key =>
    match lookupField rest key with
    | some v2 => some v2
    | none => if k = key then some v else none

def getField (j : Json) (key : String) : Option Json :=
  match j with
  | .obj kvs => lookupField kvs key
  | _ => none

def jsonToSessionRecord (j : Json) : Option SessionRecord :=
  match getField j "id", getField j "updatedAt", getField j "payload" with
  | some (.str id), some (.str upd), some payload =>
    let deleted : Option Bool :=
      match getField j "deleted" with
      | some (.bool b) => some b
      | _ => none
    let checksum : Option String :=
      match getField j "checksum" with
      | some (.str c) => some c
      | _ => none
    some ⟨id, upd, payload, deleted, checksum⟩
  | _, _, _ => none

/-- `readSessionRecords` on the file's content: empty-after-trim content
is the empty list; otherwise every non-empty line must parse
(`SESSION_PARSE_FAILED` carries the 1-based line number of the first
failure). -/
def parseRecordLines : Nat → List (List Char) → Except StorageError (List SessionRecord)
  | _, [] => .ok []
  | i, line :: rest =>
    match (parseVal (line.length + 1) line).bind
        (fun p => if skipWs p.2 = [] then some p.1 else none) |>.bind jsonToSessionRecord with
    | none => .error (.sessionParseFailed i)
    | some r =>
      match parseRecordLines (i + 1) rest with
      | .error e => .error e
      | .ok rs => .ok (r :: rs)

def parseSessionsContent (content : String) : Except StorageError (List SessionRecord) :=
  if trimChars content.data = [] then .ok []
  else parseRecordLines 1 (sessionLines content)

def optIntJson : Option Int → Json
  | none => .null
  | some n => .num n

def optStrJson : Option String → Json
  | none => .null
  | some s => .str s

def statusStrOf : SchemaStateStatus → String
  | .ready => "ready"
  | .migrating => "migrating"

/-- The JSON object a `SchemaState` stringifies as: keys in the
insertion order of the source's state object literals. -/
def stateJsonMembers (st : SchemaState) : List (String × Json) :=
  [("schemaVersion", .num st.schemaVersion), ("status", .str (statusStrOf st.status)),
   ("targetVersion", optIntJson st.targetVersion), ("migrationId", optStrJson st.migrationId),
   ("backupPath", optStrJson st.backupPath), ("updatedAt", .str st.updatedAt)]

def stateJson (st : SchemaState) : Json := .obj (stateJsonMembers st)

/-- The two-space-indented member list of `JSON.stringify(value, null, 2)`
for a flat object: members separated by a comma, newline and the
two-space indent. -/
def prettyMembers : List (String × Json) → List Char
  | [] => []
  | [(k, v)] => quoteChars k ++ ':' :: ' ' :: printJsonChars v
  | (k, v) :: m :: rest =>
    quoteChars k ++ ':' :: ' ' :: printJsonChars v ++ ',' :: '\n' :: ' ' :: ' ' :: prettyMembers (m :: rest)

/-- The exact file content `writeJsonAtomic` produces for a
`SchemaState`: `JSON.stringify(state, null, 2)` plus a trailing
newline (see the concrete template example below). -/
def schemaStatePrettyChars (st : SchemaState) : List Char :=
  '\x7b' :: '\n' :: ' ' :: ' ' :: prettyMembers (stateJsonMembers st)
    ++ '\n' :: '\x7d' :: '\n' :: []

def schemaStateContent (st : SchemaState) : String := String.mk (schemaStatePrettyChars st)

example : schemaStateContent
    { schemaVersion := 2, status := .ready, targetVersion := none, migrationId := none,
      backupPath := none, updatedAt := "2026-02-11T00:00:00.000Z" } =
    "\x7b\n  \"schemaVersion\": 2,\n  \"status\": \"ready\",\n  \"targetVersion\": null,\n  \"migrationId\": null,\n  \"backupPath\": null,\n  \"updatedAt\": \"2026-02-11T00:00:00.000Z\"\n\x7d\n" := by
  rfl

/-- `readSchemaState`'s validation and defaulting, applied to the parsed
state file: `schemaVersion` must be a number and `status` one of
"ready"/"migrating" (else `SCHEMA_STATE_INVALID`); the remaining fields
default to null (epoch timestamp for `updatedAt`). -/
def parseSchemaStateContent (raw : String) : Except StorageError SchemaState :=
  match parseJson raw with
  | none => .error .jsonSyntaxError
  | some parsed =>
    match getField parsed "schemaVersion" with
    | some (.num v) =>
      match getField parsed "status" with
      | some (.str statusStr) =>
        if statusStr = "ready" ∨ statusStr = "migrating" then
          .ok {
            schemaVersion := v
            status := if statusStr = "ready" then .ready else .migrating
            targetVersion :=
              match getField parsed "targetVersion" with
              | some (.num t) => some t
              | _ => none
            migrationId :=
              match getField parsed "migrationId" with
              | some (.str m) => some m
              | _ => none
            backupPath :=
              match getField parsed "backupPath" with
              | some (.str b) => some b
              | _ => none
            updatedAt :=
              match getField parsed "updatedAt" with
              | some (.str u) => u
              | _ => "1970-01-01T00:00:00.000Z" }
        else .error .schemaStateInvalid
      | _ => .error .schemaStateInvalid
    | _ => .error .schemaStateInvalid

/-! ## The storage engine -/

/-- `createReadyState(version)`. -/
def createReadyState (version : Int) (now : String) : SchemaState where
  schemaVersion := version
  status := .ready
  targetVersion := none
  migrationId := none
  backupPath := none
  updatedAt := now

/-- `writeJsonAtomic(paths.schemaStateFile, state)`: replace the state
file with the pretty-printed state (plus trailing newline) and record
the written state on the ghost trace. -/
def writeSchemaStateFile (st : SchemaState) (s : Store) : Store :=
  { s with schemaState := some (schemaStateContent st), stateWrites := s.stateWrites ++ [st] }

/-- `ensureStorageInitialized`: create the state file (fresh READY state
at the current version) and an empty session log when absent.  `mkdir`
has no observable effect in the model. -/
def ensureStorageInitialized (now : String) (s : Store) : Store :=
  let s := if s.schemaState.isSome then s
           else writeSchemaStateFile (createReadyState CURRENT_SCHEMA_VERSION now) s
  if s.sessions.isSome then s else { s with sessions := some "" }

/-- `readSchemaState`: read and validate the state file.  Reading a
missing file is a raw filesystem error (never reached after
`ensureStorageInitialized`). -/
def readSchemaState (s : Store) : Except StorageError SchemaState :=
  match s.schemaState with
  | none => .error .fsError
  | some raw => parseSchemaStateContent raw

/-- `readSessionRecords(paths.sessionsFile)`: missing file reads as the
empty list. -/
def readSessionRecordsStore (s : Store) : Except StorageError (List SessionRecord) :=
  match s.sessions with
  | none => .ok []
  | some content => parseSessionsContent content

/-- `normalizeRecordForSchema`: rebuild the record from its four content
fields; for schema ≥ 2 recompute and attach the checksum, otherwise
drop it. -/
def normalizeRecordForSchema (r : SessionRecord) (schemaVersion : Int) : SessionRecord :=
  let base : SessionRecord :=
    { id := r.id, updatedAt := r.updatedAt, payload := r.payload, deleted := r.deleted, checksum := none }
  if schemaVersion ≥ 2 then
    { base with checksum := some (computeChecksum base.id base.updatedAt base.payload (base.deleted.getD false)) }
  else base

/-- `writeSessionsAtomic(paths.sessionsFile, records)`. -/
def writeSessionsFile (records : List SessionRecord) (s : Store) : Store :=
  { s with sessions := some (sessionsContent records) }

/-- `backupSessions`: copy the session log's content (empty if the log
is missing) to the backup file. -/
def backupSessions (s : Store) : Store :=
  { s with backup := some (s.sessions.getD "") }

/-- The registered `v1-to-v2` transform: read all records, normalize
each for schema 2, rewrite the log atomically. -/
def migrationV1toV2 (s : Store) : Store × Except StorageError Unit :=
  match readSessionRecordsStore s with
  | .error e => (s, .error e)
  | .ok records => (writeSessionsFile (records.map (normalizeRecordForSchema · 2)) s, .ok ())

/-- The `MIGRATIONS` registry: a single entry for "v1-to-v2". -/
def MIGRATIONS (migrationId : String) : Option (Store → Store × Except StorageError Unit) :=
  if migrationId = "v1-to-v2" then some migrationV1toV2 else none

def migrationIdChars (version next : Int) : String :=
  String.mk ('v' :: intToChars version ++ '-' :: 't' :: 'o' :: '-' :: 'v' :: intToChars next)

/-- `recoverInterruptedMigration`: with no usable backup
(`backupPath` unset — JS-falsy, so also the empty string — or the backup
file missing) fail with `MIGRATION_RECOVERY_FAILED`; otherwise restore
the session log verbatim from the backup, reset the state to READY at
the interrupted state's `schemaVersion`, and delete the backup. -/
def recoverInterruptedMigration (paths : StoragePaths) (state : SchemaState) (now : String) (s : Store) :
    Store × Except StorageError Unit :=
  match state.backupPath with
  | none => (s, .error .migrationRecoveryFailed)
  | some bp =>
    match fileContentAt paths s bp with
    | none => (s, .error .migrationRecoveryFailed)
    | some backupContent =>
      let s := writeFileAt paths s paths.sessionsFile backupContent
      let s := writeSchemaStateFile (createReadyState state.schemaVersion now) s
      let s := deleteFileAt paths s bp
      (s, .ok ())

/-- The migration loop of `runMigrations`: one iteration per version
from the current one up to `targetVersion - 1` (the fuel is the number
of remaining iterations).  Each step: resolve the transform, write the
MIGRATING state (the durability barrier), back up the log, then run the
transform (or the injected interruption); any failure inside the `try`
becomes `MIGRATION_FAILED` and stops the loop; on success promote to
READY at the next version and delete the backup. -/
def runMigrationSteps (paths : StoragePaths) (now : String) (interrupt : Bool) :
    Nat → Int → List String → Store → Store × Except StorageError (List String)
  | 0, _, applied, s => (s, .ok applied)
  | Nat.succ fuel, version, applied, s =>
    let nextVersion := version + 1
    let migrationId := migrationIdChars version nextVersion
    match MIGRATIONS migrationId with
    | none => (s, .error .migrationPathMissing)
    | some migrate =>
      let activeState : SchemaState :=
        { schemaVersion := version, status := .migrating, targetVersion := some nextVersion,
          migrationId := some migrationId, backupPath := some paths.backupFile, updatedAt := now }
      let s := writeSchemaStateFile activeState s
      let s := backupSessions s
      let tryResult : Store × Except StorageError Unit :=
        if interrupt then (s, .error .migrationInterrupted) else migrate s
      match tryResult with
      | (s2, .error _) => (s2, .error .migrationFailed)
      | (s2, .ok ()) =>
        let s3 := writeSchemaStateFile (createReadyState nextVersion now) s2
        let s4 := deleteFileAt paths s3 paths.backupFile
        runMigrationSteps paths now interrupt fuel nextVersion (applied ++ [migrationId]) s4

/-- The tail of `runMigrations` after the recovery branch: downgrade
check, migration loop, result assembly. -/
def runMigrationsTail (paths : StoragePaths) (now : String) (options : MigrationRunOptions)
    (recovered : Bool) (state : SchemaState) (s : Store) :
    Store × Except StorageError MigrationRunResult :=
  let targetVersion := options.targetVersion.getD CURRENT_SCHEMA_VERSION
  if state.schemaVersion > targetVersion then (s, .error .migrationDowngradeBlocked)
  else
    let fromVersion := state.schemaVersion
    match runMigrationSteps paths now options.interruptAfterStateWrite
        (targetVersion - state.schemaVersion).toNat state.schemaVersion [] s with
    | (s2, .error e) => (s2, .error e)
    | (s2, .ok applied) =>
      if applied.isEmpty then
        (s2, .ok { status := "up-to-date", fromVersion := fromVersion, toVersion := fromVersion,
                   recovered := recovered, applied := applied })
      else
        (s2, .ok { status := "migrated", fromVersion := fromVersion, toVersion := targetVersion,
                   recovered := recovered, applied := applied })

/-- `runMigrations`: initialize, read state, reject an out-of-range
target, recover an interrupted migration (re-reading the state), then
the downgrade check and the migration loop. -/
def runMigrations (options : MigrationRunOptions) (now : String) (rootDir : String) (s : Store) :
    Store × Except StorageError MigrationRunResult :=
  let paths := getStoragePaths rootDir
  let s := ensureStorageInitialized now s
  match readSchemaState s with
  | .error e => (s, .error e)
  | .ok state0 =>
    let targetVersion := options.targetVersion.getD CURRENT_SCHEMA_VERSION
    if targetVersion > CURRENT_SCHEMA_VERSION ∨ targetVersion < 1 then
      (s, .error .migrationTargetUnsupported)
    else if state0.status = .migrating then
      match recoverInterruptedMigration paths state0 now s with
      | (s1, .error e) => (s1, .error e)
      | (s1, .ok ()) =>
        match readSchemaState s1 with
        | .error e => (s1, .error e)
        | .ok state1 => runMigrationsTail paths now options true state1 s1
    else runMigrationsTail paths now options false state0 s

/-- The issues `checkSessionIntegrity` records for one record at a
1-based line number: blank id, blank updatedAt, and for schema ≥ 2 a
missing (JS-falsy, so also empty) or mismatching checksum. -/
def recordIssues (schemaVersion : Int) (line : Nat) (r : SessionRecord) : List IntegrityIssue :=
  (if trimChars r.id.data = [] then
    [{ code := "SESSION_ID_EMPTY", message := "Session id must not be empty", line := some line }]
   else [])
  ++ (if trimChars r.updatedAt.data = [] then
    [{ code := "SESSION_UPDATED_AT_EMPTY", message := "Session updatedAt must not be empty", line := some line }]
   else [])
  ++ (if schemaVersion ≥ 2 then
        match r.checksum with
        | none => [{ code := "CHECKSUM_MISSING", message := "Checksum is required for schema v2+", line := some line }]
        | some c =>
          if c = "" then
            [{ code := "CHECKSUM_MISSING", message := "Checksum is required for schema v2+", line := some line }]
          else if c ≠ computeChecksum r.id r.updatedAt r.payload (r.deleted.getD false) then
            [{ code := "CHECKSUM_INVALID", message := "Checksum validation failed", line := some line }]
          else []
      else [])

def integrityIssuesFrom (schemaVersion : Int) : Nat → List SessionRecord → List IntegrityIssue
  | _, [] => []
  | line, r :: rest => recordIssues schemaVersion line r ++ integrityIssuesFrom schemaVersion (line + 1) rest

/-- `checkSessionIntegrity`: initialize, read state and records, collect
issues per record (1-indexed lines), report. -/
def checkSessionIntegrity (now : String) (s : Store) : Store × Except StorageError IntegrityReport :=
  let s := ensureStorageInitialized now s
  match readSchemaState s with
  | .error e => (s, .error e)
  | .ok state =>
    match readSessionRecordsStore s with
    | .error e => (s, .error e)
    | .ok records =>
      let issues := integrityIssuesFrom state.schemaVersion 1 records
      (s, .ok { healthy := issues.isEmpty, schemaVersion := state.schemaVersion,
                issueCount := issues.length, issues := issues })

/-- `latestById.set(record.id, record)`: a JS Map keeps the key order of
first insertion and the most recently set value. -/
def mapSet (m : List (String × SessionRecord)) (k : String) (v : SessionRecord) :
    List (String × SessionRecord) :=
  if m.any (fun kv => kv.1 = k) then m.map (fun kv => if kv.1 = k then (k, v) else kv)
  else m ++ [(k, v)]

def latestByIdMap : List SessionRecord → List (String × SessionRecord) → List (String × SessionRecord)
  | [], m => m
  | r :: rest, m => latestByIdMap rest (mapSet m r.id r)

/-- The compaction pipeline on a record list: keep the last physical
occurrence per id (in first-insertion order), drop tombstones, normalize
the survivors for the schema version. -/
def compactRecords (records : List SessionRecord) (schemaVersion : Int) : List SessionRecord :=
  (((latestByIdMap records []).map (fun kv => kv.2)).filter (fun r => !(r.deleted.getD false))).map
    (normalizeRecordForSchema · schemaVersion)

/-- `compactSessions`: initialize, read state and records, compact,
atomically rewrite the log, report counts. -/
def compactSessions (now : String) (s : Store) : Store × Except StorageError CompactionReport :=
  let s := ensureStorageInitialized now s
  match readSchemaState s with
  | .error e => (s, .error e)
  | .ok state =>
    match readSessionRecordsStore s with
    | .error e => (s, .error e)
    | .ok records =>
      let normalized := compactRecords records state.schemaVersion
      let s := writeSessionsFile normalized s
      (s, .ok { before := records.length, after := normalized.length,
                removed := records.length - normalized.length })

/-- `writeSessionRecords`: initialize, read state, normalize every
caller-supplied record for the current schema, atomically rewrite the
log. -/
def writeSessionRecords (now : String) (records : List SessionRecord) (s : Store) :
    Store × Except StorageError Unit :=
  let s := ensureStorageInitialized now s
  match readSchemaState s with
  | .error e => (s, .error e)
  | .ok state =>
    (writeSessionsFile (records.map (normalizeRecordForSchema · state.schemaVersion)) s, .ok ())

/-! ## Plain strings and the string-literal round trip

`plainChar` carves out the characters that JSON.stringify emits
unescaped; every identifier, timestamp, path and payload the engine or
the theorems below handle is plain. -/

def plainChar (c : Char) : Bool := !(c = '"') && !(c = '\\') && 32 ≤ c.toNat

def plainList (l : List Char) : Bool := l.all plainChar

def plainStr (s : String) : Bool := plainList s.data

theorem plainChar_spec {c : Char} (h : plainChar c = true) :
    ¬(c = '"') ∧ ¬(c = '\\') ∧ 32 ≤ c.toNat := by
  simp only [plainChar, Bool.and_eq_true, Bool.not_eq_true', decide_eq_false_iff_not,
    decide_eq_true_eq] at h
  exact ⟨h.1.1, h.1.2, h.2⟩

theorem escapeChar_plain {c : Char} (h : plainChar c = true) : escapeChar c = [c] := by
  obtain ⟨h1, h2, h3⟩ := plainChar_spec h
  have hn : ¬(c = '\n') := by intro he; subst he; simp at h3
  have hr : ¬(c = '\r') := by intro he; subst he; simp at h3
  have ht : ¬(c = '\t') := by intro he; subst he; simp at h3
  have hb : ¬(c = '\x08') := by intro he; subst he; simp at h3
  have hf : ¬(c = '\x0c') := by intro he; subst he; simp at h3
  simp [escapeChar, h1, h2, hn, hr, ht, hb, hf, Nat.not_lt.mpr h3]

theorem escapeList_plain {l : List Char} (h : plainList l = true) : escapeList l = l := by
  induction l with
  | nil => rfl
  | cons c rest ih =>
    simp only [plainList, List.all_cons, Bool.and_eq_true] at h
    simp [escapeList, escapeChar_plain h.1, ih h.2]

theorem parseStrBody_plain {l : List Char} (rest : List Char) (h : plainList l = true) :
    parseStrBody (l ++ '"' :: rest) = some (l, rest) := by
  induction l with
  | nil => simp [parseStrBody]
  | cons c t ih =>
    simp only [plainList, List.all_cons, Bool.and_eq_true] at h
    obtain ⟨hq, hbs, _⟩ := plainChar_spec h.1
    simp [parseStrBody, hq, hbs, ih h.2]

theorem strMk_data (s : String) : String.mk s.data = s := by cases s; rfl

theorem plainStr_append {a b : String} (ha : plainStr a = true) (hb : plainStr b = true) :
    plainStr (a ++ b) = true := by
  simp only [plainStr, plainList, String.data_append, List.all_append, Bool.and_eq_true]
  exact ⟨ha, hb⟩

/-! ## skipWs -/

theorem skipWs_cons_of_not_ws {c : Char} (l : List Char) (h : isJsonWs c = false) :
    skipWs (c :: l) = c :: l := by
  simp [skipWs, h]

theorem skipWs_idem (l : List Char) : skipWs (skipWs l) = skipWs l := by
  induction l with
  | nil => rfl
  | cons c rest ih =>
    by_cases h : isJsonWs c = true
    · simp [skipWs, h, ih]
    · simp only [Bool.not_eq_true] at h
      simp [skipWs, h]

theorem parseVal_skipWs (fuel : Nat) (cs : List Char) :
    parseVal fuel cs = parseVal fuel (skipWs cs) := by
  cases fuel with
  | zero => rfl
  | succ f => simp only [parseVal, skipWs_idem]

/-! ## Decimal digits -/

theorem digitsVal_append (a b : List Char) (acc : Nat) :
    digitsVal (a ++ b) acc = digitsVal b (digitsVal a acc) := by
  induction a generalizing acc with
  | nil => rfl
  | cons c rest ih => simp [digitsVal, ih]

theorem natToDigitsAux_spec (fuel : Nat) :
    ∀ n, n < fuel →
      (natToDigitsAux fuel n).all isDigitCh = true ∧ natToDigitsAux fuel n ≠ [] ∧
        ∀ acc, digitsVal (natToDigitsAux fuel n) acc = acc * 10 ^ (natToDigitsAux fuel n).length + n := by
  induction fuel with
  | zero => intro n hn; omega
  | succ f ih =>
    intro n hn
    by_cases hsmall : n < 10
    · have hval : (Char.ofNat (48 + n)).toNat = 48 + n := by
        have hv : (48 + n).isValidChar := Or.inl (by omega)
        rw [Char.ofNat, dif_pos hv]
        rfl
      refine ⟨?_, by simp [natToDigitsAux, hsmall], ?_⟩
      · simp only [natToDigitsAux, if_pos hsmall, List.all_cons, List.all_nil, Bool.and_true,
          isDigitCh, hval]
        simp
        omega
      · intro acc
        simp [natToDigitsAux, hsmall, digitsVal, hval]
    · have hd : n / 10 < f := by omega
      obtain ⟨hall, hne, hval⟩ := ih (n / 10) hd
      have hvald : (Char.ofNat (48 + n % 10)).toNat = 48 + n % 10 := by
        have hv : (48 + n % 10).isValidChar := Or.inl (by omega)
        rw [Char.ofNat, dif_pos hv]
        rfl
      refine ⟨?_, by simp [natToDigitsAux, hsmall], ?_⟩
      · simp only [natToDigitsAux, if_neg hsmall, List.all_append, Bool.and_eq_true]
        refine ⟨hall, ?_⟩
        simp [isDigitCh, hvald]
        omega
      · intro acc
        simp only [natToDigitsAux, if_neg hsmall, digitsVal_append, hval acc, List.length_append,
          List.length_singleton, digitsVal, hvald]
        have : acc * 10 ^ ((natToDigitsAux f (n / 10)).length + 1) =
            acc * 10 ^ (natToDigitsAux f (n / 10)).length * 10 := by ring
        rw [this]
        omega

theorem natToDigits_spec (n : Nat) :
    (natToDigits n).all isDigitCh = true ∧ natToDigits n ≠ [] ∧
      digitsVal (natToDigits n) 0 = n := by
  obtain ⟨h1, h2, h3⟩ := natToDigitsAux_spec (n + 1) n (by omega)
  exact ⟨h1, h2, by simpa using h3 0⟩

theorem takeDigits_append {ds : List Char} (rest : List Char) (hds : ds.all isDigitCh = true)
    (hrest : rest = [] ∨ ∀ c t, rest = c :: t → isDigitCh c = false) :
    takeDigits (ds ++ rest) = (ds, rest) := by
  induction ds with
  | nil =>
    rcases hrest with h | h
    · subst h; rfl
    · cases rest with
      | nil => rfl
      | cons c t => simp [takeDigits, h c t rfl]
  | cons c t ih =>
    simp only [List.all_cons, Bool.and_eq_true] at hds
    simp [takeDigits, hds.1, ih hds.2]

/-! ## Print/parse round trip for plain JSON values -/

mutual

def jsonPlain : Json → Bool
  | .null => true
  | .bool _ => true
  | .num _ => true
  | .str s => plainStr s
  | .arr xs => jsonPlainArr xs
  | .obj kvs => jsonPlainObj kvs

def jsonPlainArr : List Json → Bool
  | [] => true
  | x :: rest => jsonPlain x && jsonPlainArr rest

def jsonPlainObj : List (String × Json) → Bool
  | [] => true
  | (k, v) :: rest => plainStr k && jsonPlain v && jsonPlainObj rest

end

mutual

/-- Fuel sufficient for `parseVal` to parse the printed value. -/
def needFuel : Json → Nat
  | .null => 1
  | .bool _ => 1
  | .num _ => 1
  | .str _ => 1
  | .arr xs => 1 + needFuelArr xs
  | .obj kvs => 1 + needFuelObj kvs

def needFuelArr : List Json → Nat
  | [] => 0
  | x :: rest => 1 + max (needFuel x) (needFuelArr rest)

def needFuelObj : List (String × Json) → Nat
  | [] => 0
  | (_, v) :: rest => 1 + max (needFuel v) (needFuelObj rest)

end

def notDigitStart : List Char → Bool
  | [] => true
  | c :: _ => !isDigitCh c

theorem isDigitCh_not_special {c : Char} (h : isDigitCh c = true) :
    isJsonWs c = false ∧ ¬(c = '"') ∧ ¬(c = '[') ∧ ¬(c = '\x7b') ∧ ¬(c = 'n') ∧ ¬(c = 't')
      ∧ ¬(c = 'f') ∧ ¬(c = '-') ∧ ¬(c = ']') ∧ ¬(c = '\x7d') ∧ ¬(c = ',') := by
  simp only [isDigitCh, Bool.and_eq_true, decide_eq_true_eq] at h
  constructor
  · simp only [isJsonWs, Bool.or_eq_false_iff, decide_eq_false_iff_not]
    refine ⟨⟨⟨?_, ?_⟩, ?_⟩, ?_⟩ <;> (intro he; subst he; revert h; decide)
  · refine ⟨?_, ?_, ?_, ?_, ?_, ?_, ?_, ?_, ?_, ?_⟩ <;> (intro he; subst he; revert h; decide)

theorem headCharOk (c : Char) {l t : List Char}
    (hok : (!isJsonWs c && !(c = ']') && !(c = '\x7d')) = true) (h : l = c :: t) :
    ∃ c2 t2, l = c2 :: t2 ∧ isJsonWs c2 = false ∧ ¬(c2 = ']') ∧ ¬(c2 = '\x7d') := by
  simp only [Bool.and_eq_true, Bool.not_eq_true', decide_eq_false_iff_not] at hok
  exact ⟨c, t, h, hok.1.1, hok.1.2, hok.2⟩

theorem printJson_head (j : Json) :
    ∃ c t, printJsonChars j = c :: t ∧ isJsonWs c = false ∧ ¬(c = ']') ∧ ¬(c = '\x7d') := by
  cases j with
  | null => exact headCharOk 'n' (by decide) rfl
  | bool b =>
    cases b with
    | true => exact headCharOk 't' (by decide) rfl
    | false => exact headCharOk 'f' (by decide) rfl
  | num n =>
    by_cases hneg : n < 0
    · exact headCharOk '-' (by decide)
        (show printJsonChars (.num n) = '-' :: natToDigits n.natAbs by
          simp [printJsonChars, intToChars, hneg])
    · obtain ⟨hall, hne, _⟩ := natToDigits_spec n.toNat
      obtain ⟨d, ds, hds⟩ := List.exists_cons_of_ne_nil hne
      have hd : isDigitCh d = true := by
        have := hall
        rw [hds] at this
        simp only [List.all_cons, Bool.and_eq_true] at this
        exact this.1
      obtain ⟨hws, _, _, _, _, _, _, _, hrb, hcb, _⟩ := isDigitCh_not_special hd
      refine ⟨d, ds, ?_, hws, hrb, hcb⟩
      simp [printJsonChars, intToChars, hneg, hds]
  | str s => exact headCharOk '"' (by decide) rfl
  | arr xs => exact headCharOk '[' (by decide) rfl
  | obj kvs => exact headCharOk '\x7b' (by decide) rfl

theorem printArr_head (x : Json) (xs : List Json) :
    ∃ c t, printArrChars (x :: xs) = c :: t ∧ isJsonWs c = false ∧ ¬(c = ']') ∧ ¬(c = '\x7d') := by
  obtain ⟨c, t, hct, h1, h2, h3⟩ := printJson_head x
  cases xs with
  | nil => exact ⟨c, t, by simp [printArrChars, hct], h1, h2, h3⟩
  | cons y ys =>
    exact ⟨c, t ++ ',' :: printArrChars (y :: ys), by simp [printArrChars, hct], h1, h2, h3⟩

theorem printObj_head (k : String) (v : Json) (kvs : List (String × Json)) :
    ∃ t, printObjChars ((k, v) :: kvs) = '"' :: t := by
  cases kvs with
  | nil =>
    exact ⟨escapeList k.data ++ '"' :: ':' :: printJsonChars v,
      by simp [printObjChars, quoteChars]⟩
  | cons m ms =>
    exact ⟨escapeList k.data ++ '"' :: ':' :: (printJsonChars v ++ ',' :: printObjChars (m :: ms)),
      by simp [printObjChars, quoteChars]⟩

theorem notDigitStart_cons (c : Char) (rest : List Char) (h : isDigitCh c = false) :
    notDigitStart (c :: rest) = true := by
  simp [notDigitStart, h]

mutual

theorem rtVal : ∀ (j : Json) (fuel : Nat) (rest : List Char),
    jsonPlain j = true → needFuel j ≤ fuel → notDigitStart rest = true →
    parseVal fuel (printJsonChars j ++ rest) = some (j, rest)
  | .null, fuel, rest, _, hfuel, _ => by
    obtain ⟨f, rfl⟩ : ∃ f, fuel = f + 1 := ⟨fuel - 1, by simp [needFuel] at hfuel; omega⟩
    simp [printJsonChars, parseVal, skipWs, isJsonWs, expectChars]
  | .bool true, fuel, rest, _, hfuel, _ => by
    obtain ⟨f, rfl⟩ : ∃ f, fuel = f + 1 := ⟨fuel - 1, by simp [needFuel] at hfuel; omega⟩
    simp [printJsonChars, parseVal, skipWs, isJsonWs, expectChars]
  | .bool false, fuel, rest, _, hfuel, _ => by
    obtain ⟨f, rfl⟩ : ∃ f, fuel = f + 1 := ⟨fuel - 1, by simp [needFuel] at hfuel; omega⟩
    simp [printJsonChars, parseVal, skipWs, isJsonWs, expectChars]
  | .num n, fuel, rest, _, hfuel, hrest => by
    obtain ⟨f, rfl⟩ : ∃ f, fuel = f + 1 := ⟨fuel - 1, by simp [needFuel] at hfuel; omega⟩
    have hrest2 : rest = [] ∨ ∀ c t, rest = c :: t → isDigitCh c = false := by
      cases rest with
      | nil => exact Or.inl rfl
      | cons c t =>
        right
        intro c' t' he
        cases he
        simpa [notDigitStart] using hrest
    by_cases hneg : n < 0
    · obtain ⟨hall, hne, hval⟩ := natToDigits_spec n.natAbs
      obtain ⟨d, ds, hds⟩ := List.exists_cons_of_ne_nil hne
      have htd : takeDigits (natToDigits n.natAbs ++ rest) = (natToDigits n.natAbs, rest) :=
        takeDigits_append rest hall hrest2
      rw [hds] at htd hval
      simp only [List.cons_append] at htd
      simp only [printJsonChars, intToChars, if_pos hneg, hds, List.cons_append]
      simp only [parseVal]
      rw [skipWs_cons_of_not_ws _ (by decide)]
      simp only [Char.reduceEq, reduceIte, htd, hval, Option.some.injEq, Prod.mk.injEq,
        Json.num.injEq, and_true, Int.ofNat_eq_coe]
      omega
    · obtain ⟨hall, hne, hval⟩ := natToDigits_spec n.toNat
      obtain ⟨d, ds, hds⟩ := List.exists_cons_of_ne_nil hne
      rw [hds] at hall hval
      simp only [List.all_cons, Bool.and_eq_true] at hall
      obtain ⟨hws, hq, hlb, hob, hn, ht, hf2, hminus, _, _, _⟩ := isDigitCh_not_special hall.1
      have htd : takeDigits (ds ++ rest) = (ds, rest) := takeDigits_append rest hall.2 hrest2
      simp only [printJsonChars, intToChars, if_neg hneg, hds, List.cons_append]
      simp only [parseVal]
      rw [skipWs_cons_of_not_ws _ hws]
      simp only [if_neg hq, if_neg hlb, if_neg hob, if_neg hn, if_neg ht, if_neg hf2,
        if_neg hminus, hall.1, if_true, htd, hval, Option.some.injEq, Prod.mk.injEq,
        Json.num.injEq, and_true, Int.ofNat_eq_coe]
      omega
  | .str s, fuel, rest, hplain, hfuel, _ => by
    obtain ⟨f, rfl⟩ : ∃ f, fuel = f + 1 := ⟨fuel - 1, by simp [needFuel] at hfuel; omega⟩
    have hp : plainList s.data = true := by simpa [jsonPlain, plainStr] using hplain
    simp only [printJsonChars, quoteChars, List.cons_append, List.append_assoc,
      List.singleton_append, List.nil_append]
    simp only [parseVal]
    rw [skipWs_cons_of_not_ws _ (by decide)]
    simp only [Char.reduceEq, reduceIte]
    rw [escapeList_plain hp, parseStrBody_plain rest hp]
  | .arr [], fuel, rest, _, hfuel, _ => by
    obtain ⟨f, rfl⟩ : ∃ f, fuel = f + 1 := ⟨fuel - 1, by simp [needFuel] at hfuel; omega⟩
    simp [printJsonChars, printArrChars, parseVal, skipWs, isJsonWs]
  | .arr (x :: xs), fuel, rest, hplain, hfuel, _ => by
    obtain ⟨f, rfl⟩ : ∃ f, fuel = f + 1 := ⟨fuel - 1, by simp [needFuel] at hfuel; omega⟩
    have hfa : needFuelArr (x :: xs) ≤ f := by
      simp only [needFuel] at hfuel
      omega
    have hpa : jsonPlainArr (x :: xs) = true := by simpa [jsonPlain] using hplain
    have hrw := rtArr (x :: xs) f rest (by simp) hpa hfa
    obtain ⟨c, t, hct, hcws, hcrb, _⟩ := printArr_head x xs
    simp only [printJsonChars, List.cons_append, List.append_assoc, List.singleton_append,
      List.nil_append]
    simp only [parseVal]
    rw [skipWs_cons_of_not_ws _ (by decide)]
    simp only [Char.reduceEq, reduceIte]
    rw [hct, List.cons_append, skipWs_cons_of_not_ws _ hcws]
    simp only [if_neg hcrb]
    rw [← List.cons_append, ← hct, hrw]
  | .obj [], fuel, rest, _, hfuel, _ => by
    obtain ⟨f, rfl⟩ : ∃ f, fuel = f + 1 := ⟨fuel - 1, by simp [needFuel] at hfuel; omega⟩
    simp [printJsonChars, printObjChars, parseVal, skipWs, isJsonWs]
  | .obj ((k, v) :: kvs), fuel, rest, hplain, hfuel, _ => by
    obtain ⟨f, rfl⟩ : ∃ f, fuel = f + 1 := ⟨fuel - 1, by simp [needFuel] at hfuel; omega⟩
    have hfo : needFuelObj ((k, v) :: kvs) ≤ f := by
      simp only [needFuel] at hfuel
      omega
    have hpo : jsonPlainObj ((k, v) :: kvs) = true := by simpa [jsonPlain] using hplain
    have hrw := rtObj ((k, v) :: kvs) f rest (by simp) hpo hfo
    obtain ⟨t, hct⟩ := printObj_head k v kvs
    simp only [printJsonChars, List.cons_append, List.append_assoc, List.singleton_append,
      List.nil_append]
    simp only [parseVal]
    rw [skipWs_cons_of_not_ws _ (by decide)]
    simp only [Char.reduceEq, reduceIte]
    rw [hct, List.cons_append, skipWs_cons_of_not_ws _ (by decide)]
    simp only [Char.reduceEq, reduceIte]
    rw [← List.cons_append, ← hct, hrw]

theorem rtArr : ∀ (xs : List Json) (fuel : Nat) (rest : List Char),
    xs ≠ [] → jsonPlainArr xs = true → needFuelArr xs ≤ fuel →
    parseArrItems fuel (printArrChars xs ++ ']' :: rest) = some (xs, rest)
  | [], _, _, hne, _, _ => absurd rfl hne
  | [x], fuel, rest, _, hplain, hfuel => by
    obtain ⟨f, rfl⟩ : ∃ f, fuel = f + 1 := ⟨fuel - 1, by simp [needFuelArr] at hfuel; omega⟩
    have hx : jsonPlain x = true := by simpa [jsonPlainArr] using hplain
    have hfx : needFuel x ≤ f := by
      simp only [needFuelArr] at hfuel ⊢
      omega
    simp only [printArrChars]
    simp only [parseArrItems]
    rw [rtVal x f (']' :: rest) hx hfx (notDigitStart_cons _ _ (by decide))]
    simp [skipWs, isJsonWs]
  | x :: y :: ys, fuel, rest, _, hplain, hfuel => by
    obtain ⟨f, rfl⟩ : ∃ f, fuel = f + 1 := ⟨fuel - 1, by simp [needFuelArr] at hfuel; omega⟩
    rw [show jsonPlainArr (x :: y :: ys) = (jsonPlain x && jsonPlainArr (y :: ys)) from rfl,
      Bool.and_eq_true] at hplain
    have hfx : needFuel x ≤ f := by
      simp only [needFuelArr] at hfuel ⊢
      omega
    have hfr : needFuelArr (y :: ys) ≤ f := by
      simp only [needFuelArr] at hfuel ⊢
      omega
    have hrw := rtArr (y :: ys) f rest (by simp) hplain.2 hfr
    simp only [printArrChars, List.cons_append, List.append_assoc]
    simp only [parseArrItems]
    rw [rtVal x f _ hplain.1 hfx (notDigitStart_cons _ _ (by decide))]
    simp [skipWs, isJsonWs, hrw]

theorem rtObj : ∀ (kvs : List (String × Json)) (fuel : Nat) (rest : List Char),
    kvs ≠ [] → jsonPlainObj kvs = true → needFuelObj kvs ≤ fuel →
    parseObjItems fuel (printObjChars kvs ++ '\x7d' :: rest) = some (kvs, rest)
  | [], _, _, hne, _, _ => absurd rfl hne
  | [(k, v)], fuel, rest, _, hplain, hfuel => by
    obtain ⟨f, rfl⟩ : ∃ f, fuel = f + 1 := ⟨fuel - 1, by simp [needFuelObj] at hfuel; omega⟩
    simp only [jsonPlainObj, Bool.and_eq_true, and_true] at hplain
    have hfv : needFuel v ≤ f := by
      simp only [needFuelObj] at hfuel ⊢
      omega
    have hstr : parseStrBody (escapeList k.data ++ '"' :: ':' :: (printJsonChars v ++ '\x7d' :: rest)) =
        some (k.data, ':' :: (printJsonChars v ++ '\x7d' :: rest)) := by
      rw [escapeList_plain hplain.1]
      exact parseStrBody_plain _ hplain.1
    have hv := rtVal v f ('\x7d' :: rest) hplain.2 hfv (notDigitStart_cons _ _ (by decide))
    simp only [printObjChars, quoteChars, List.cons_append, List.append_assoc,
      List.singleton_append, List.nil_append]
    simp only [parseObjItems]
    simp [skipWs, isJsonWs, hstr, hv, strMk_data]
  | (k, v) :: m :: ms, fuel, rest, _, hplain, hfuel => by
    obtain ⟨f, rfl⟩ : ∃ f, fuel = f + 1 := ⟨fuel - 1, by simp [needFuelObj] at hfuel; omega⟩
    rw [show jsonPlainObj ((k, v) :: m :: ms) =
        (plainStr k && jsonPlain v && jsonPlainObj (m :: ms)) from rfl,
      Bool.and_eq_true, Bool.and_eq_true] at hplain
    have hfv : needFuel v ≤ f := by
      simp only [needFuelObj] at hfuel ⊢
      omega
    have hfr : needFuelObj (m :: ms) ≤ f := by
      simp only [needFuelObj] at hfuel ⊢
      omega
    have hrw := rtObj (m :: ms) f rest (by simp) hplain.2 hfr
    have hstr : parseStrBody (escapeList k.data ++ '"' :: ':' ::
          (printJsonChars v ++ ',' :: (printObjChars (m :: ms) ++ '\x7d' :: rest))) =
        some (k.data, ':' :: (printJsonChars v ++ ',' :: (printObjChars (m :: ms) ++ '\x7d' :: rest))) := by
      rw [escapeList_plain hplain.1.1]
      exact parseStrBody_plain _ hplain.1.1
    have hv := rtVal v f (',' :: (printObjChars (m :: ms) ++ '\x7d' :: rest)) hplain.1.2 hfv
      (notDigitStart_cons _ _ (by decide))
    simp only [printObjChars, quoteChars, List.cons_append, List.append_assoc,
      List.singleton_append, List.nil_append]
    simp only [parseObjItems]
    simp [skipWs, isJsonWs, hstr, hv, hrw, strMk_data]

end

theorem printJson_ne_nil (j : Json) : printJsonChars j ≠ [] := by
  obtain ⟨c, t, hct, _, _, _⟩ := printJson_head j
  simp [hct]

mutual

theorem needFuel_le_len : ∀ (j : Json), needFuel j ≤ (printJsonChars j).length
  | .null => by simp [needFuel, printJsonChars]
  | .bool true => by simp [needFuel, printJsonChars]
  | .bool false => by simp [needFuel, printJsonChars]
  | .num n => by
    have h := printJson_ne_nil (.num n)
    have : 1 ≤ (printJsonChars (.num n)).length := List.length_pos.mpr h
    simpa [needFuel] using this
  | .str s => by
    simp [needFuel, printJsonChars, quoteChars]
  | .arr xs => by
    have h := needFuelArr_le_len xs
    simp only [needFuel, printJsonChars, List.length_cons, List.length_append,
      List.length_singleton]
    omega
  | .obj kvs => by
    have h := needFuelObj_le_len kvs
    simp only [needFuel, printJsonChars, List.length_cons, List.length_append,
      List.length_singleton]
    omega

theorem needFuelArr_le_len : ∀ (xs : List Json), needFuelArr xs ≤ (printArrChars xs).length + 1
  | [] => by simp [needFuelArr, printArrChars]
  | [x] => by
    have h := needFuel_le_len x
    simp only [needFuelArr, printArrChars]
    omega
  | x :: y :: ys => by
    have h1 := needFuel_le_len x
    have h2 := needFuelArr_le_len (y :: ys)
    simp only [needFuelArr, printArrChars, List.length_append, List.length_cons]
    simp only [needFuelArr] at h2
    omega

theorem needFuelObj_le_len : ∀ (kvs : List (String × Json)),
    needFuelObj kvs ≤ (printObjChars kvs).length + 1
  | [] => by simp [needFuelObj, printObjChars]
  | [(k, v)] => by
    have h := needFuel_le_len v
    simp only [needFuelObj, printObjChars, List.length_append, List.length_cons]
    omega
  | (k, v) :: m :: ms => by
    have h1 := needFuel_le_len v
    have h2 := needFuelObj_le_len (m :: ms)
    simp only [needFuelObj, printObjChars, List.length_append, List.length_cons]
    simp only [needFuelObj] at h2
    omega

end

/-- Top-level round trip: JSON.parse inverts JSON.stringify on plain
values. -/
theorem parseJson_print (j : Json) (h : jsonPlain j = true) :
    parseJson (String.mk (printJsonChars j)) = some j := by
  have hdata : (String.mk (printJsonChars j)).data = printJsonChars j := rfl
  have hfuel : needFuel j ≤ (printJsonChars j).length + 1 :=
    Nat.le_succ_of_le (needFuel_le_len j)
  have hrt := rtVal j ((printJsonChars j).length + 1) [] h hfuel (by decide)
  rw [List.append_nil] at hrt
  simp [parseJson, hdata, hrt, skipWs]

/-! ## Round trip for the session log content -/

def recordPlain (r : SessionRecord) : Bool :=
  plainStr r.id && plainStr r.updatedAt && jsonPlain r.payload &&
    (match r.checksum with
     | none => true
     | some c => plainStr c)

theorem jsonToRecord_print (r : SessionRecord) :
    jsonToSessionRecord (recordToJson r) = some r := by
  rcases r with ⟨id, upd, payload, deleted, checksum⟩
  cases deleted <;> cases checksum <;> rfl

theorem recordToJson_plain (r : SessionRecord) (h : recordPlain r = true) :
    jsonPlain (recordToJson r) = true := by
  rcases r with ⟨id, upd, payload, deleted, checksum⟩
  simp only [recordPlain, Bool.and_eq_true] at h
  have hid := h.1.1.1
  have hupd := h.1.1.2
  have hpay := h.1.2
  have hchk := h.2
  cases deleted <;> cases checksum <;>
    simp_all [recordToJson, jsonPlain, jsonPlainObj] <;> decide

theorem dropLeadingWs_cons_not_ws {c : Char} (l : List Char) (h : isTrimWs c = false) :
    dropLeadingWs (c :: l) = c :: l := by
  simp [dropLeadingWs, h]

theorem trimChars_shape (c d : Char) (mid : List Char)
    (hc : isTrimWs c = false) (hd : isTrimWs d = false) :
    trimChars (c :: (mid ++ [d])) = c :: (mid ++ [d]) := by
  have hrev : (c :: (mid ++ [d])).reverse = d :: (mid.reverse ++ [c]) := by
    simp
  simp only [trimChars, hrev, dropLeadingWs_cons_not_ws _ hd]
  have hrev2 : (d :: (mid.reverse ++ [c])).reverse = c :: (mid ++ [d]) := by
    simp
  simp only [hrev2, dropLeadingWs_cons_not_ws _ hc]

theorem dropLeadingWs_eq_nil_iff (l : List Char) :
    dropLeadingWs l = [] ↔ l.all isTrimWs = true := by
  induction l with
  | nil => simp [dropLeadingWs]
  | cons c rest ih =>
    by_cases h : isTrimWs c = true
    · simp [dropLeadingWs, h, ih]
    · simp only [Bool.not_eq_true] at h
      simp [dropLeadingWs, h]

theorem all_dropLeadingWs (l : List Char) :
    (dropLeadingWs l).all isTrimWs = l.all isTrimWs := by
  induction l with
  | nil => rfl
  | cons c rest ih =>
    by_cases h : isTrimWs c = true
    · simp [dropLeadingWs, h, ih]
    · simp only [Bool.not_eq_true] at h
      simp [dropLeadingWs, h]

theorem trimChars_eq_nil_iff (l : List Char) :
    trimChars l = [] ↔ l.all isTrimWs = true := by
  simp only [trimChars, dropLeadingWs_eq_nil_iff, List.all_reverse, all_dropLeadingWs]

theorem splitOnNl_ne_nil (l : List Char) : splitOnNl l ≠ [] := by
  induction l with
  | nil => simp [splitOnNl]
  | cons c rest ih =>
    by_cases h : c = '\n'
    · simp [splitOnNl, h]
    · simp only [splitOnNl, if_neg h]
      cases he : splitOnNl rest with
      | nil => simp
      | cons a as => simp

theorem splitOnNl_line (line rest : List Char) (h : line.all (fun c => !(c = '\n')) = true) :
    splitOnNl (line ++ '\n' :: rest) = line :: splitOnNl rest := by
  induction line with
  | nil => simp [splitOnNl]
  | cons c t ih =>
    simp only [List.all_cons, Bool.and_eq_true, Bool.not_eq_true',
      decide_eq_false_iff_not] at h
    simp only [List.cons_append, splitOnNl, if_neg h.1, List.append_eq, ih h.2]

theorem plainChar_ne_nl {c : Char} (h : plainChar c = true) : (!(c = '\n') : Bool) = true := by
  obtain ⟨_, _, h3⟩ := plainChar_spec h
  simp only [Bool.not_eq_true', decide_eq_false_iff_not]
  intro he
  subst he
  simp at h3

theorem plainList_noNl {l : List Char} (h : plainList l = true) :
    (l.all fun c => !(c = '\n')) = true := by
  induction l with
  | nil => rfl
  | cons c rest ih =>
    simp only [plainList, List.all_cons, Bool.and_eq_true] at h
    simp only [List.all_cons, Bool.and_eq_true]
    exact ⟨plainChar_ne_nl h.1, ih h.2⟩

theorem digits_noNl {l : List Char} (h : l.all isDigitCh = true) :
    (l.all fun c => !(c = '\n')) = true := by
  induction l with
  | nil => rfl
  | cons c rest ih =>
    simp only [List.all_cons, Bool.and_eq_true] at h
    simp only [List.all_cons, Bool.and_eq_true]
    refine ⟨?_, ih h.2⟩
    have := h.1
    simp only [isDigitCh, Bool.and_eq_true, decide_eq_true_eq] at this
    simp only [Bool.not_eq_true', decide_eq_false_iff_not]
    intro he
    subst he
    simp at this

theorem quoteChars_noNl {s : String} (h : plainStr s = true) :
    ((quoteChars s).all fun c => !(c = '\n')) = true := by
  simp [quoteChars, escapeList_plain h, plainList_noNl h]

theorem intToChars_noNl (n : Int) : ((intToChars n).all fun c => !(c = '\n')) = true := by
  by_cases hneg : n < 0
  · obtain ⟨hall, _, _⟩ := natToDigits_spec n.natAbs
    simp only [intToChars, if_pos hneg, List.all_cons, Bool.and_eq_true]
    exact ⟨by decide, digits_noNl hall⟩
  · obtain ⟨hall, _, _⟩ := natToDigits_spec n.toNat
    simp only [intToChars, if_neg hneg]
    exact digits_noNl hall

mutual

theorem printNoNl : ∀ (j : Json), jsonPlain j = true →
    ((printJsonChars j).all fun c => !(c = '\n')) = true
  | .null, _ => by decide
  | .bool true, _ => by decide
  | .bool false, _ => by decide
  | .num n, _ => intToChars_noNl n
  | .str s, h => quoteChars_noNl (by simpa [jsonPlain, plainStr] using h)
  | .arr xs, h => by
    have ha := printArrNoNl xs (by simpa [jsonPlain] using h)
    simp [printJsonChars, ha]
  | .obj kvs, h => by
    have ho := printObjNoNl kvs (by simpa [jsonPlain] using h)
    simp [printJsonChars, ho]

theorem printArrNoNl : ∀ (xs : List Json), jsonPlainArr xs = true →
    ((printArrChars xs).all fun c => !(c = '\n')) = true
  | [], _ => rfl
  | [x], h => by
    simp only [printArrChars]
    exact printNoNl x (by simpa [jsonPlainArr] using h)
  | x :: y :: ys, h => by
    rw [show jsonPlainArr (x :: y :: ys) = (jsonPlain x && jsonPlainArr (y :: ys)) from rfl,
      Bool.and_eq_true] at h
    simp [printArrChars, printNoNl x h.1, printArrNoNl (y :: ys) h.2]

theorem printObjNoNl : ∀ (kvs : List (String × Json)), jsonPlainObj kvs = true →
    ((printObjChars kvs).all fun c => !(c = '\n')) = true
  | [], _ => rfl
  | [(k, v)], h => by
    rw [show jsonPlainObj [(k, v)] = (plainStr k && jsonPlain v && jsonPlainObj []) from rfl,
      Bool.and_eq_true, Bool.and_eq_true] at h
    simp [printObjChars, quoteChars_noNl h.1.1, printNoNl v h.1.2]
  | (k, v) :: m :: ms, h => by
    rw [show jsonPlainObj ((k, v) :: m :: ms) =
        (plainStr k && jsonPlain v && jsonPlainObj (m :: ms)) from rfl,
      Bool.and_eq_true, Bool.and_eq_true] at h
    simp [printObjChars, quoteChars_noNl h.1.1, printNoNl v h.1.2, printObjNoNl (m :: ms) h.2]

end

/-- Every record line is a braced object: its shape as head, middle,
closing brace. -/
theorem recordLine_shape (r : SessionRecord) :
    ∃ mid, recordLineChars r = '\x7b' :: (mid ++ ['\x7d']) := by
  rcases r with ⟨id, upd, payload, deleted, checksum⟩
  exact ⟨_, rfl⟩

theorem recordLine_noNl (r : SessionRecord) (h : recordPlain r = true) :
    ((recordLineChars r).all fun c => !(c = '\n')) = true :=
  printNoNl (recordToJson r) (recordToJson_plain r h)

theorem recordLine_trim (r : SessionRecord) : trimChars (recordLineChars r) = recordLineChars r := by
  obtain ⟨mid, hmid⟩ := recordLine_shape r
  rw [hmid]
  exact trimChars_shape _ _ _ (by decide) (by decide)

theorem sessionsJoin_split (rs : List SessionRecord) (hne : rs ≠ [])
    (h : ∀ r ∈ rs, recordPlain r = true) :
    splitOnNl (sessionsJoin rs ++ ['\n']) = (rs.map recordLineChars) ++ [[]] := by
  match rs with
  | [] => exact absurd rfl hne
  | [r] =>
    have hn := recordLine_noNl r (h r (by simp))
    simp only [sessionsJoin, List.map_cons, List.map_nil]
    rw [show (['\n'] : List Char) = '\n' :: [] from rfl, splitOnNl_line _ _ hn]
    rfl
  | r :: r2 :: rest =>
    have hn := recordLine_noNl r (h r (by simp))
    have ih := sessionsJoin_split (r2 :: rest) (by simp) (fun x hx => h x (by simp [hx]))
    simp only [sessionsJoin, List.map_cons]
    rw [List.append_assoc, List.cons_append]
    rw [splitOnNl_line _ _ hn, ih]
    rfl

theorem parseLine_record (r : SessionRecord) (h : recordPlain r = true) :
    parseVal ((recordLineChars r).length + 1) (recordLineChars r) = some (recordToJson r, []) := by
  have hfuel : needFuel (recordToJson r) ≤ (recordLineChars r).length + 1 :=
    Nat.le_succ_of_le (needFuel_le_len (recordToJson r))
  have hrt := rtVal (recordToJson r) ((recordLineChars r).length + 1) []
    (recordToJson_plain r h) hfuel (by decide)
  rw [List.append_nil] at hrt
  exact hrt

theorem parseRecordLines_map (rs : List SessionRecord) :
    ∀ i, (∀ r ∈ rs, recordPlain r = true) →
      parseRecordLines i (rs.map recordLineChars) = .ok rs := by
  induction rs with
  | nil => intro i _; rfl
  | cons r rest ih =>
    intro i h
    have hr := h r (by simp)
    have hline := parseLine_record r hr
    simp only [List.map_cons, parseRecordLines, hline, Option.bind_some, skipWs,
      reduceIte, Option.some_bind, jsonToRecord_print, ih (i + 1) (fun x hx => h x (by simp [hx]))]

theorem mapTrimFilter (ls : List (List Char)) (h1 : ∀ x ∈ ls, trimChars x = x)
    (h2 : ∀ x ∈ ls, x ≠ []) :
    ((ls.map trimChars).filter fun l => decide (l ≠ [])) = ls := by
  induction ls with
  | nil => rfl
  | cons a as ih =>
    simp only [List.map_cons, List.filter_cons, h1 a (by simp), ne_eq]
    rw [ih (fun x hx => h1 x (by simp [hx])) (fun x hx => h2 x (by simp [hx]))]
    simp [h2 a (by simp)]

/-- Round trip for the session log: reading back the file content that
`writeSessionsAtomic` wrote yields the same records. -/
theorem parseSessionsContent_print (rs : List SessionRecord)
    (h : ∀ r ∈ rs, recordPlain r = true) :
    parseSessionsContent (sessionsContent rs) = .ok rs := by
  match rs with
  | [] => rfl
  | r :: rest =>
    have hcontent : (sessionsContent (r :: rest)).data = sessionsJoin (r :: rest) ++ ['\n'] := by
      simp [sessionsContent]
    have hne : trimChars (sessionsJoin (r :: rest) ++ ['\n']) ≠ [] := by
      rw [Ne, trimChars_eq_nil_iff]
      obtain ⟨mid, hmid⟩ := recordLine_shape r
      have hshape : ∃ tail, sessionsJoin (r :: rest) ++ ['\n'] = '\x7b' :: tail := by
        cases rest with
        | nil => exact ⟨mid ++ ['\x7d', '\n'], by simp [sessionsJoin, hmid]⟩
        | cons r2 rest2 =>
          exact ⟨mid ++ '\x7d' :: '\n' :: (sessionsJoin (r2 :: rest2) ++ ['\n']),
            by simp [sessionsJoin, hmid]⟩
      obtain ⟨tail, htail⟩ := hshape
      rw [htail]
      simp [isTrimWs]
    have hsplit := sessionsJoin_split (r :: rest) (by simp) h
    have htrims : ∀ x ∈ (r :: rest).map recordLineChars, trimChars x = x := by
      intro x hx
      simp only [List.mem_map] at hx
      obtain ⟨rr, _, hrr⟩ := hx
      rw [← hrr]
      exact recordLine_trim rr
    have hnonempty : ∀ x ∈ (r :: rest).map recordLineChars, x ≠ [] := by
      intro x hx
      simp only [List.mem_map] at hx
      obtain ⟨rr, _, hrr⟩ := hx
      obtain ⟨mid, hmid⟩ := recordLine_shape rr
      simp [← hrr, hmid]
    have hlines : sessionLines (sessionsContent (r :: rest)) = (r :: rest).map recordLineChars := by
      simp only [sessionLines, hcontent, hsplit, List.map_append, List.filter_append]
      rw [mapTrimFilter _ htrims hnonempty]
      simp [trimChars, dropLeadingWs]
    simp only [parseSessionsContent, hcontent]
    rw [if_neg hne]
    rw [hlines]
    exact parseRecordLines_map (r :: rest) 1 h

/-! ## Round trip for the schema-state file -/

def jsonScalar : Json → Bool
  | .arr _ => false
  | .obj _ => false
  | _ => true

theorem jsonScalar_needFuel {v : Json} (h : jsonScalar v = true) : needFuel v = 1 := by
  cases v with
  | arr xs => simp [jsonScalar] at h
  | obj kvs => simp [jsonScalar] at h
  | null => rfl
  | bool b => rfl
  | num n => rfl
  | str s => rfl

def memberOk (kv : String × Json) : Bool :=
  plainStr kv.1 && jsonPlain kv.2 && jsonScalar kv.2

theorem parseVal_space (v : Json) (f : Nat) (R : List Char) (hplain : jsonPlain v = true)
    (hfuel : needFuel v ≤ f) (hrest : notDigitStart R = true) :
    parseVal f (' ' :: (printJsonChars v ++ R)) = some (v, R) := by
  obtain ⟨c, t, hct, hws, _, _⟩ := printJson_head v
  have h1 : skipWs (' ' :: (printJsonChars v ++ R)) = printJsonChars v ++ R := by
    rw [show skipWs (' ' :: (printJsonChars v ++ R)) = skipWs (printJsonChars v ++ R) from by
      simp [skipWs, isJsonWs]]
    rw [hct, List.cons_append, skipWs_cons_of_not_ws _ hws, ← List.cons_append, ← hct]
  rw [parseVal_skipWs, h1]
  exact rtVal v f R hplain hfuel hrest

theorem parseObjItems_skipWs (fuel : Nat) (cs : List Char) :
    parseObjItems fuel cs = parseObjItems fuel (skipWs cs) := by
  cases fuel with
  | zero => rfl
  | succ f => simp only [parseObjItems, skipWs_idem]

theorem prettyMembers_head (k : String) (v : Json) (ms : List (String × Json)) :
    ∃ t, prettyMembers ((k, v) :: ms) = '"' :: t := by
  cases ms with
  | nil => exact ⟨escapeList k.data ++ '"' :: ':' :: ' ' :: printJsonChars v,
      by simp [prettyMembers, quoteChars]⟩
  | cons m mss =>
    exact ⟨escapeList k.data ++ '"' :: ':' :: ' ' ::
        (printJsonChars v ++ ',' :: '\n' :: ' ' :: ' ' :: prettyMembers (m :: mss)),
      by simp [prettyMembers, quoteChars]⟩

theorem parsePrettyMembers : ∀ (kvs : List (String × Json)) (fuel : Nat) (rest : List Char),
    kvs ≠ [] → (∀ kv ∈ kvs, memberOk kv = true) → kvs.length + 1 ≤ fuel →
    parseObjItems fuel (prettyMembers kvs ++ '\n' :: '\x7d' :: rest) = some (kvs, rest)
  | [], _, _, hne, _, _ => absurd rfl hne
  | [(k, v)], fuel, rest, _, hok, hfuel => by
    obtain ⟨f, rfl⟩ : ∃ f, fuel = f + 1 := ⟨fuel - 1, by omega⟩
    have hkv := hok (k, v) (by simp)
    simp only [memberOk, Bool.and_eq_true] at hkv
    have hstr : parseStrBody (escapeList k.data ++ '"' :: ':' :: ' ' ::
          (printJsonChars v ++ '\n' :: '\x7d' :: rest)) =
        some (k.data, ':' :: ' ' :: (printJsonChars v ++ '\n' :: '\x7d' :: rest)) := by
      rw [escapeList_plain hkv.1.1]
      exact parseStrBody_plain _ hkv.1.1
    have hv : parseVal f (' ' :: (printJsonChars v ++ '\n' :: '\x7d' :: rest)) =
        some (v, '\n' :: '\x7d' :: rest) :=
      parseVal_space v f _ hkv.1.2
        (by rw [jsonScalar_needFuel hkv.2]
            simp only [List.length_cons] at hfuel
            omega)
        (notDigitStart_cons _ _ (by decide))
    simp only [prettyMembers, quoteChars, List.cons_append, List.append_assoc,
      List.singleton_append, List.nil_append]
    simp only [parseObjItems]
    simp [skipWs, isJsonWs, hstr, hv, strMk_data]
  | (k, v) :: m :: ms, fuel, rest, _, hok, hfuel => by
    obtain ⟨f, rfl⟩ : ∃ f, fuel = f + 1 := ⟨fuel - 1, by omega⟩
    have hkv := hok (k, v) (by simp)
    simp only [memberOk, Bool.and_eq_true] at hkv
    have hrec := parsePrettyMembers (m :: ms) f rest (by simp)
      (fun kv hkv2 => hok kv (by simp [hkv2]))
      (by simp only [List.length_cons] at hfuel ⊢; omega)
    obtain ⟨mk, mv⟩ := m
    obtain ⟨t2, ht2⟩ := prettyMembers_head mk mv ms
    have hskip2 : parseObjItems f
        ('\n' :: ' ' :: ' ' :: (prettyMembers ((mk, mv) :: ms) ++ '\n' :: '\x7d' :: rest)) =
        some ((mk, mv) :: ms, rest) := by
      rw [parseObjItems_skipWs]
      rw [show skipWs ('\n' :: ' ' :: ' ' ::
            (prettyMembers ((mk, mv) :: ms) ++ '\n' :: '\x7d' :: rest)) =
          skipWs (prettyMembers ((mk, mv) :: ms) ++ '\n' :: '\x7d' :: rest) from by
        simp [skipWs, isJsonWs]]
      rw [ht2, List.cons_append, skipWs_cons_of_not_ws _ (by decide), ← List.cons_append, ← ht2]
      exact hrec
    have hstr : parseStrBody (escapeList k.data ++ '"' :: ':' :: ' ' ::
          (printJsonChars v ++ ',' :: '\n' :: ' ' :: ' ' ::
            (prettyMembers ((mk, mv) :: ms) ++ '\n' :: '\x7d' :: rest))) =
        some (k.data, ':' :: ' ' :: (printJsonChars v ++ ',' :: '\n' :: ' ' :: ' ' ::
          (prettyMembers ((mk, mv) :: ms) ++ '\n' :: '\x7d' :: rest))) := by
      rw [escapeList_plain hkv.1.1]
      exact parseStrBody_plain _ hkv.1.1
    have hv : parseVal f (' ' :: (printJsonChars v ++ ',' :: '\n' :: ' ' :: ' ' ::
          (prettyMembers ((mk, mv) :: ms) ++ '\n' :: '\x7d' :: rest))) =
        some (v, ',' :: '\n' :: ' ' :: ' ' ::
          (prettyMembers ((mk, mv) :: ms) ++ '\n' :: '\x7d' :: rest)) :=
      parseVal_space v f _ hkv.1.2
        (by rw [jsonScalar_needFuel hkv.2]
            simp only [List.length_cons] at hfuel
            omega)
        (notDigitStart_cons _ _ (by decide))
    simp only [prettyMembers, quoteChars, List.cons_append, List.append_assoc,
      List.singleton_append, List.nil_append]
    simp only [parseObjItems]
    simp [skipWs, isJsonWs, hstr, hv, hskip2, strMk_data]

/-- Plainness of the strings inside a schema state (timestamps, the
migration id and the backup path are ASCII text without quotes,
backslashes or control characters). -/
def schemaStatePlain (st : SchemaState) : Bool :=
  plainStr st.updatedAt &&
    (match st.migrationId with
     | none => true
     | some s => plainStr s) &&
    (match st.backupPath with
     | none => true
     | some s => plainStr s)

theorem stateMembers_ok (st : SchemaState) (h : schemaStatePlain st = true) :
    ∀ kv ∈ stateJsonMembers st, memberOk kv = true := by
  rcases st with ⟨v, status, tv, mid, bp, upd⟩
  simp only [schemaStatePlain, Bool.and_eq_true] at h
  intro kv hkv
  simp only [stateJsonMembers, List.mem_cons, List.mem_singleton, List.not_mem_nil,
    or_false] at hkv
  rcases hkv with rfl | rfl | rfl | rfl | rfl | rfl
  · simp [memberOk, jsonPlain, jsonScalar]
    decide
  · cases status <;> simp [memberOk, jsonPlain, jsonScalar, statusStrOf] <;> decide
  · cases tv <;> simp [memberOk, optIntJson, jsonPlain, jsonScalar] <;> decide
  · cases mid with
    | none => simp [memberOk, optStrJson, jsonPlain, jsonScalar]; decide
    | some s =>
      have hs := h.1.2
      simp only [memberOk, optStrJson, jsonPlain, jsonScalar, Bool.and_eq_true]
      refine ⟨⟨by decide, ?_⟩, trivial⟩
      simpa using hs
  · cases bp with
    | none => simp [memberOk, optStrJson, jsonPlain, jsonScalar]; decide
    | some s =>
      have hs := h.2
      simp only [memberOk, optStrJson, jsonPlain, jsonScalar, Bool.and_eq_true]
      refine ⟨⟨by decide, ?_⟩, trivial⟩
      simpa using hs
  · have hs := h.1.1
    simp only [memberOk, jsonPlain, jsonScalar, Bool.and_eq_true]
    exact ⟨⟨by decide, by simpa using hs⟩, trivial⟩

theorem parseJson_stateContent (st : SchemaState) (h : schemaStatePlain st = true) :
    parseJson (schemaStateContent st) = some (stateJson st) := by
  have hok := stateMembers_ok st h
  have hdata : (schemaStateContent st).data = schemaStatePrettyChars st := rfl
  have hlen : 7 ≤ (schemaStatePrettyChars st).length := by
    simp only [schemaStatePrettyChars, List.length_cons, List.length_append]
    omega
  have hmem : parseObjItems ((schemaStatePrettyChars st).length)
      (prettyMembers (stateJsonMembers st) ++ '\n' :: '\x7d' :: ['\n']) =
      some (stateJsonMembers st, ['\n']) := by
    refine parsePrettyMembers (stateJsonMembers st) ((schemaStatePrettyChars st).length)
      ['\n'] (by simp [stateJsonMembers]) hok ?_
    simp only [stateJsonMembers, List.length_cons, List.length_nil]
    omega
  obtain ⟨t2, ht2⟩ : ∃ t2, prettyMembers (stateJsonMembers st) = '"' :: t2 := by
    simp only [stateJsonMembers]
    exact prettyMembers_head _ _ _
  have hskips : skipWs ('\n' :: ' ' :: ' ' ::
      (prettyMembers (stateJsonMembers st) ++ '\n' :: '\x7d' :: ['\n'])) =
      prettyMembers (stateJsonMembers st) ++ '\n' :: '\x7d' :: ['\n'] := by
    rw [show skipWs ('\n' :: ' ' :: ' ' ::
        (prettyMembers (stateJsonMembers st) ++ '\n' :: '\x7d' :: ['\n'])) =
        skipWs (prettyMembers (stateJsonMembers st) ++ '\n' :: '\x7d' :: ['\n']) from by
      simp [skipWs, isJsonWs]]
    rw [ht2, List.cons_append, skipWs_cons_of_not_ws _ (by decide), ← List.cons_append, ← ht2]
  have hshape : schemaStatePrettyChars st =
      '\x7b' :: ('\n' :: ' ' :: ' ' ::
        (prettyMembers (stateJsonMembers st) ++ '\n' :: '\x7d' :: ['\n'])) := by
    simp [schemaStatePrettyChars]
  simp only [parseJson, hdata]
  conv in parseVal _ _ => rw [hshape]
  simp only [parseVal]
  rw [skipWs_cons_of_not_ws _ (by decide)]
  simp only [Char.reduceEq, reduceIte]
  rw [hskips, ht2, List.cons_append]
  simp only [Char.reduceEq, reduceIte]
  rw [show ('"' : Char) :: (t2 ++ '\n' :: '\x7d' :: ['\n']) =
      prettyMembers (stateJsonMembers st) ++ '\n' :: '\x7d' :: ['\n'] from by
    rw [ht2, List.cons_append]]
  rw [hshape] at hmem
  rw [hmem]
  simp [stateJson, skipWs, isJsonWs]

/-- Round trip for the schema-state file: reading back the content that
`writeJsonAtomic` wrote yields the same state. -/
theorem parseSchemaStateContent_print (st : SchemaState) (h : schemaStatePlain st = true) :
    parseSchemaStateContent (schemaStateContent st) = .ok st := by
  have hp := parseJson_stateContent st h
  simp only [parseSchemaStateContent, hp]
  rcases st with ⟨v, status, tv, mid, bp, upd⟩
  cases status <;> cases tv <;> cases mid <;> cases bp <;>
    simp [stateJson, stateJsonMembers, getField, lookupField, optIntJson, optStrJson, statusStrOf]

/-! ## Engine-level lemmas -/

theorem paths_sessions_ne_schema (root : String) :
    (getStoragePaths root).sessionsFile ≠ (getStoragePaths root).schemaStateFile := by
  intro h
  have hd := congrArg String.data h
  simp only [getStoragePaths, String.data_append] at hd
  have := List.append_cancel_left hd
  simp at this

theorem paths_backup_ne_sessions (root : String) :
    (getStoragePaths root).backupFile ≠ (getStoragePaths root).sessionsFile := by
  intro h
  have hd := congrArg String.data h
  simp only [getStoragePaths, String.data_append] at hd
  have := List.append_cancel_left hd
  simp at this

theorem paths_backup_ne_schema (root : String) :
    (getStoragePaths root).backupFile ≠ (getStoragePaths root).schemaStateFile := by
  intro h
  have hd := congrArg String.data h
  simp only [getStoragePaths, String.data_append] at hd
  have := List.append_cancel_left hd
  simp at this

theorem ensure_id (now : String) (s : Store) (h1 : s.schemaState.isSome = true)
    (h2 : s.sessions.isSome = true) : ensureStorageInitialized now s = s := by
  simp [ensureStorageInitialized, h1, h2]

theorem readSchemaState_write (st : SchemaState) (s : Store) (h : schemaStatePlain st = true) :
    readSchemaState (writeSchemaStateFile st s) = .ok st := by
  simp [readSchemaState, writeSchemaStateFile, parseSchemaStateContent_print st h]

theorem fileContentAt_backup (root : String) (s : Store) :
    fileContentAt (getStoragePaths root) s (getStoragePaths root).backupFile = s.backup := by
  simp only [fileContentAt, if_neg (paths_backup_ne_sessions root),
    if_neg (paths_backup_ne_schema root), if_pos rfl, if_true]

theorem writeFileAt_sessions (root : String) (s : Store) (content : String) :
    writeFileAt (getStoragePaths root) s (getStoragePaths root).sessionsFile content =
      { s with sessions := some content } := by
  simp only [writeFileAt, if_pos rfl, if_true]

theorem deleteFileAt_backup (root : String) (s : Store) :
    deleteFileAt (getStoragePaths root) s (getStoragePaths root).backupFile =
      { s with backup := none } := by
  simp only [deleteFileAt, if_neg (paths_backup_ne_sessions root),
    if_neg (paths_backup_ne_schema root), if_pos rfl, if_true]

/-- Plainness of the backup path the engine writes, for a plain root. -/
theorem backupFile_plain (root : String) (h : plainStr root = true) :
    plainStr (getStoragePaths root).backupFile = true := by
  simp only [getStoragePaths]
  exact plainStr_append h (by decide)

theorem migrationIdChars_1_2 : migrationIdChars 1 2 = "v1-to-v2" := by decide

/-! ## Claims -/

/-- C9: `runMigrations` rejects a target version outside
`[1, CURRENT_SCHEMA_VERSION]` with `MIGRATION_TARGET_UNSUPPORTED`, and,
for a READY store, rejects a target version below the current schema
version with `MIGRATION_DOWNGRADE_BLOCKED`; in both cases the returned
store is exactly the input store, so no file is mutated. -/
theorem C9_target_and_downgrade_validation
    (root now : String) (opts : MigrationRunOptions) (s : Store) (C : String) (st : SchemaState)
    (hC : s.schemaState = some C) (hsess : s.sessions.isSome = true)
    (hparse : parseSchemaStateContent C = .ok st) :
    (((opts.targetVersion.getD CURRENT_SCHEMA_VERSION) > CURRENT_SCHEMA_VERSION ∨
        (opts.targetVersion.getD CURRENT_SCHEMA_VERSION) < 1) →
      runMigrations opts now root s = (s, .error .migrationTargetUnsupported)) ∧
    (¬((opts.targetVersion.getD CURRENT_SCHEMA_VERSION) > CURRENT_SCHEMA_VERSION ∨
        (opts.targetVersion.getD CURRENT_SCHEMA_VERSION) < 1) →
      st.status = .ready →
      st.schemaVersion > opts.targetVersion.getD CURRENT_SCHEMA_VERSION →
      runMigrations opts now root s = (s, .error .migrationDowngradeBlocked)) := by
  have hs1 : s.schemaState.isSome = true := by simp [hC]
  have hens := ensure_id now s hs1 hsess
  have hread : readSchemaState s = .ok st := by simp [readSchemaState, hC, hparse]
  constructor
  · intro hout
    simp only [runMigrations, hens, hread]
    rw [if_pos hout]
  · intro hin hready hdg
    have hmig : ¬(st.status = SchemaStateStatus.migrating) := by
      rw [hready]
      decide
    simp only [runMigrations, hens, hread]
    rw [if_neg hin, if_neg hmig]
    simp only [runMigrationsTail]
    rw [if_pos hdg]

def c9State : SchemaState := createReadyState 2 "2026-02-11T00:00:00.000Z"

def c9Store : Store :=
  { sessions := some "", schemaState := some (schemaStateContent c9State),
    backup := none, stateWrites := [] }

theorem C9_witness :
    runMigrations { targetVersion := some 3 } "T" "/r" c9Store =
      (c9Store, .error .migrationTargetUnsupported) ∧
    runMigrations { targetVersion := some 1 } "T" "/r" c9Store =
      (c9Store, .error .migrationDowngradeBlocked) := by
  constructor
  · exact (C9_target_and_downgrade_validation "/r" "T" { targetVersion := some 3 } c9Store
      (schemaStateContent c9State) c9State rfl rfl (by rfl)).1 (by decide)
  · exact (C9_target_and_downgrade_validation "/r" "T" { targetVersion := some 1 } c9Store
      (schemaStateContent c9State) c9State rfl rfl (by rfl)).2 (by decide) rfl (by decide)

/-- C4 counterexample: `checkSessionIntegrity` does mutate storage when
the files do not exist — its call to `ensureStorageInitialized` creates
the schema-state file (and an empty session log) on a fresh root, so the
files do not hold the (absent) content they held before. -/
theorem C4_counterexample :
    ((checkSessionIntegrity "2026-02-11T00:00:00.000Z"
        { sessions := none, schemaState := none, backup := none, stateWrites := [] }).1.schemaState ≠
      (none : Option String)) ∧
    ((checkSessionIntegrity "2026-02-11T00:00:00.000Z"
        { sessions := none, schemaState := none, backup := none, stateWrites := [] }).1.sessions ≠
      (none : Option String)) := by
  decide

/-- C4 (amended): on a storage root whose session log and schema-state
file already exist, `checkSessionIntegrity` never mutates storage: the
returned store is exactly the input store (all three files keep their
bytes); on a fresh root the only changes are the initialization of the
missing files done by `ensureStorageInitialized`. -/
theorem C4_integrity_read_only
    (now : String) (s : Store) (L C : String)
    (hL : s.sessions = some L) (hC : s.schemaState = some C) :
    (checkSessionIntegrity now s).1 = s := by
  have hens := ensure_id now s (by simp [hC]) (by simp [hL])
  simp only [checkSessionIntegrity, hens]
  cases hrs : readSchemaState s with
  | error e => rfl
  | ok state =>
    cases hrr : readSessionRecordsStore s with
    | error e => rfl
    | ok records => rfl

theorem C4_integrity_read_only_witness :
    (checkSessionIntegrity "T" c9Store).1 = c9Store :=
  C4_integrity_read_only "T" c9Store "" (schemaStateContent c9State) rfl rfl

/-- C10: `writeSessionRecords` persists exactly the caller's records
normalized for the store's current schema: for schema ≥ 2 every
persisted record's checksum is recomputed from
`(id, updatedAt, payload, deleted)` and any caller-supplied checksum is
discarded (normalization is invariant under it); for schema < 2 the
checksum field is dropped. -/
theorem C10_writeSessionRecords_normalizes
    (now : String) (records : List SessionRecord) (s : Store) (C : String) (st : SchemaState)
    (hC : s.schemaState = some C) (hsess : s.sessions.isSome = true)
    (hparse : parseSchemaStateContent C = .ok st) :
    (writeSessionRecords now records s).1.sessions =
      some (sessionsContent (records.map (normalizeRecordForSchema · st.schemaVersion))) ∧
    (∀ r c, normalizeRecordForSchema { r with checksum := c } st.schemaVersion =
      normalizeRecordForSchema r st.schemaVersion) ∧
    (st.schemaVersion ≥ 2 → ∀ r, (normalizeRecordForSchema r st.schemaVersion).checksum =
      some (computeChecksum r.id r.updatedAt r.payload (r.deleted.getD false))) ∧
    (st.schemaVersion < 2 → ∀ r, (normalizeRecordForSchema r st.schemaVersion).checksum = none) := by
  have hens := ensure_id now s (by simp [hC]) hsess
  have hread : readSchemaState s = .ok st := by simp [readSchemaState, hC, hparse]
  refine ⟨?_, ?_, ?_, ?_⟩
  · simp only [writeSessionRecords, hens, hread, writeSessionsFile]
  · intro r c
    rfl
  · intro h2 r
    simp only [normalizeRecordForSchema, if_pos h2]
  · intro h2 r
    have : ¬(st.schemaVersion ≥ 2) := by omega
    simp only [normalizeRecordForSchema, if_neg this]

theorem C10_witness :
    (writeSessionRecords "T" [] c9Store).1.sessions = some (sessionsContent []) ∧
    (2 : Int) ≥ 2 := by
  refine ⟨?_, by decide⟩
  exact (C10_writeSessionRecords_normalizes "T" [] c9Store (schemaStateContent c9State) c9State
    rfl rfl (by rfl)).1

def c1Record : SessionRecord :=
  { id := "session-4", updatedAt := "2026-02-11T00:00:00.000Z",
    payload := .obj [("topic", .str "delta")], deleted := none, checksum := none }

/-- The interrupted state of the repository's own no-backup recovery
test: MIGRATING from v1 to v2 with `backupPath` null. -/
def c1State : SchemaState :=
  { schemaVersion := 1, status := .migrating, targetVersion := some 2,
    migrationId := some "v1-to-v2", backupPath := none,
    updatedAt := "2026-02-11T00:00:00.000Z" }

def c1Store : Store :=
  { sessions := some (sessionsContent [c1Record]),
    schemaState := some (schemaStateContent c1State),
    backup := none, stateWrites := [] }

/-- C1: the code contradicts the claimed (and unit-tested) no-backup
recovery path.  On a store whose schema state is MIGRATING with
`backupPath` unset while the session log parses validly,
`recoverInterruptedMigration` raises `MIGRATION_RECOVERY_FAILED`
without ever attempting to parse the log — `runMigrations` fails
instead of resetting the state to READY and redoing the step with
`recovered=true`. -/
theorem C1_no_backup_recovery_code_bug :
    readSessionRecordsStore c1Store = .ok [c1Record] ∧
    parseSchemaStateContent (schemaStateContent c1State) = .ok c1State ∧
    c1State.status = .migrating ∧ c1State.backupPath = none ∧
    runMigrations {} "2026-02-11T01:00:00.000Z" "/root/storage" c1Store =
      (c1Store, .error .migrationRecoveryFailed) := by
  refine ⟨by rfl, by rfl, rfl, rfl, ?_⟩
  rfl

def c3Record : SessionRecord :=
  { id := "session-9", updatedAt := "2026-02-11T00:00:00.000Z",
    payload := .obj [("topic", .str "omega")], deleted := none, checksum := none }

/-- An interrupted state whose backup exists, so recovery would succeed
if it ran. -/
def c3State : SchemaState :=
  { schemaVersion := 1, status := .migrating, targetVersion := some 2,
    migrationId := some "v1-to-v2", backupPath := some "/root/storage/sessions.backup.jsonl",
    updatedAt := "2026-02-11T00:00:00.000Z" }

def c3Store : Store :=
  { sessions := some (sessionsContent [c3Record]),
    schemaState := some (schemaStateContent c3State),
    backup := some (sessionsContent [c3Record]), stateWrites := [] }

/-- C3 counterexample: recovery does NOT execute before the
target-version range check.  On a store observed MIGRATING whose backup
file exists (so recovery would succeed and resolve the state to READY),
requesting an out-of-range target makes `runMigrations` raise
`MIGRATION_TARGET_UNSUPPORTED` with the store completely untouched —
the state file still says MIGRATING, so the recovery protocol did not
run first as the claim states. -/
theorem C3_counterexample :
    parseSchemaStateContent (schemaStateContent c3State) = .ok c3State ∧
    c3State.status = .migrating ∧
    fileContentAt (getStoragePaths "/root/storage") c3Store (c3State.backupPath.getD "") =
      some (sessionsContent [c3Record]) ∧
    (recoverInterruptedMigration (getStoragePaths "/root/storage") c3State
      "2026-02-11T01:00:00.000Z" c3Store).2 = .ok () ∧
    runMigrations { targetVersion := some 3 } "2026-02-11T01:00:00.000Z" "/root/storage" c3Store =
      (c3Store, .error .migrationTargetUnsupported) := by
  exact ⟨by rfl, rfl, by rfl, by rfl, by rfl⟩

theorem recover_cases (p : StoragePaths) (st : SchemaState) (now : String) (s : Store) :
    recoverInterruptedMigration p st now s = (s, .error .migrationRecoveryFailed) ∨
    (recoverInterruptedMigration p st now s).2 = .ok () := by
  cases hbp : st.backupPath with
  | none => left; simp [recoverInterruptedMigration, hbp]
  | some bp =>
    cases hfc : fileContentAt p s bp with
    | none => left; simp [recoverInterruptedMigration, hbp, hfc]
    | some content => right; simp [recoverInterruptedMigration, hbp, hfc]

theorem readyState_plain (v : Int) (now : String) (hnow : plainStr now = true) :
    schemaStatePlain (createReadyState v now) = true := by
  simp [schemaStatePlain, createReadyState, hnow]

theorem recover_ok_state (root now : String) (st : SchemaState) (s : Store)
    (hnow : plainStr now = true)
    (hbp : st.backupPath = none ∨ st.backupPath = some ((getStoragePaths root).backupFile))
    (hok : (recoverInterruptedMigration (getStoragePaths root) st now s).2 = .ok ()) :
    readSchemaState (recoverInterruptedMigration (getStoragePaths root) st now s).1 =
      .ok (createReadyState st.schemaVersion now) := by
  rcases hbp with hbp | hbp
  · simp [recoverInterruptedMigration, hbp] at hok
  · cases hfc : fileContentAt (getStoragePaths root) s ((getStoragePaths root).backupFile) with
    | none => simp [recoverInterruptedMigration, hbp, hfc] at hok
    | some content =>
      simp only [recoverInterruptedMigration, hbp, hfc]
      rw [writeFileAt_sessions, deleteFileAt_backup]
      simp [readSchemaState, writeSchemaStateFile,
        parseSchemaStateContent_print _ (readyState_plain st.schemaVersion now hnow)]

/-- C3 (amended): when `runMigrations` observes `status=MIGRATING`, the
recovery protocol executes after the target-version range check but
before the downgrade check and the migration loop: an out-of-range
target fails with `MIGRATION_TARGET_UNSUPPORTED` before any recovery;
for an in-range target, recovery either fails the whole call with
`MIGRATION_RECOVERY_FAILED` leaving the store unchanged, or resolves
the state file to READY at the interrupted state's schema version, and
the run continues into the downgrade check and migration loop with the
recovered READY state. -/
theorem C3_recovery_position
    (root now : String) (opts : MigrationRunOptions) (s : Store) (L C : String) (st : SchemaState)
    (hL : s.sessions = some L) (hC : s.schemaState = some C)
    (hparse : parseSchemaStateContent C = .ok st) (hmig : st.status = .migrating)
    (hnow : plainStr now = true)
    (hbp : st.backupPath = none ∨ st.backupPath = some ((getStoragePaths root).backupFile)) :
    (((opts.targetVersion.getD CURRENT_SCHEMA_VERSION) > CURRENT_SCHEMA_VERSION ∨
        (opts.targetVersion.getD CURRENT_SCHEMA_VERSION) < 1) →
      runMigrations opts now root s = (s, .error .migrationTargetUnsupported)) ∧
    (¬((opts.targetVersion.getD CURRENT_SCHEMA_VERSION) > CURRENT_SCHEMA_VERSION ∨
        (opts.targetVersion.getD CURRENT_SCHEMA_VERSION) < 1) →
      (((recoverInterruptedMigration (getStoragePaths root) st now s).2 =
          .error .migrationRecoveryFailed →
        runMigrations opts now root s = (s, .error .migrationRecoveryFailed)) ∧
       ((recoverInterruptedMigration (getStoragePaths root) st now s).2 = .ok () →
        readSchemaState (recoverInterruptedMigration (getStoragePaths root) st now s).1 =
          .ok (createReadyState st.schemaVersion now) ∧
        runMigrations opts now root s =
          runMigrationsTail (getStoragePaths root) now opts true
            (createReadyState st.schemaVersion now)
            (recoverInterruptedMigration (getStoragePaths root) st now s).1))) := by
  have hens := ensure_id now s (by simp [hC]) (by simp [hL])
  have hread : readSchemaState s = .ok st := by simp [readSchemaState, hC, hparse]
  constructor
  · intro hout
    simp only [runMigrations, hens, hread]
    rw [if_pos hout]
  · intro hin
    constructor
    · intro herr
      rcases recover_cases (getStoragePaths root) st now s with hcase | hcase
      · simp only [runMigrations, hens, hread]
        rw [if_neg hin, if_pos hmig, hcase]
      · rw [herr] at hcase
        exact Except.noConfusion hcase
    · intro hok
      have hstate := recover_ok_state root now st s hnow hbp hok
      refine ⟨hstate, ?_⟩
      rcases hrec : recoverInterruptedMigration (getStoragePaths root) st now s with ⟨s1, res⟩
      rw [hrec] at hok hstate
      simp only at hok hstate
      subst hok
      simp only [runMigrations, hens, hread]
      rw [if_neg hin, if_pos hmig, hrec]
      simp only [hstate]

def c3aState : SchemaState :=
  { schemaVersion := 1, status := .migrating, targetVersion := some 2,
    migrationId := some "v1-to-v2", backupPath := none,
    updatedAt := "2026-02-11T00:00:00.000Z" }

def c3aStore : Store :=
  { sessions := some "", schemaState := some (schemaStateContent c3aState),
    backup := none, stateWrites := [] }

theorem C3_recovery_position_witness :
    runMigrations { targetVersion := some 3 } "T" "/r" c3aStore =
      (c3aStore, .error .migrationTargetUnsupported) ∧
    runMigrations {} "T" "/r" c3aStore = (c3aStore, .error .migrationRecoveryFailed) := by
  have h := C3_recovery_position "/r" "T" { targetVersion := some 3 } c3aStore ""
    (schemaStateContent c3aState) c3aState rfl rfl (by rfl) rfl (by decide) (Or.inl rfl)
  have h2 := C3_recovery_position "/r" "T" {} c3aStore ""
    (schemaStateContent c3aState) c3aState rfl rfl (by rfl) rfl (by decide) (Or.inl rfl)
  exact ⟨h.1 (by decide), (h2.2 (by decide)).1 (by rfl)⟩

/-- The MIGRATING state the migration loop writes for the
`version → version + 1` step (the durability barrier). -/
def activeStateFor (paths : StoragePaths) (now : String) (version : Int) : SchemaState :=
  { schemaVersion := version, status := .migrating, targetVersion := some (version + 1),
    migrationId := some (migrationIdChars version (version + 1)),
    backupPath := some paths.backupFile, updatedAt := now }

theorem activeStateFor_plain (root now : String) (hnow : plainStr now = true)
    (hroot : plainStr root = true) :
    schemaStatePlain (activeStateFor (getStoragePaths root) now 1) = true := by
  simp only [schemaStatePlain, activeStateFor, Bool.and_eq_true]
  refine ⟨⟨hnow, ?_⟩, backupFile_plain root hroot⟩
  rw [show (1 : Int) + 1 = 2 by decide, migrationIdChars_1_2]
  decide

/-- C7: for a READY store at schema 1 migrating to 2, a failure injected
immediately after the durability-barrier state write makes
`runMigrations` return `MIGRATION_FAILED` and stop: the session log
holds exactly its prior bytes, the call performs exactly one state
write after the failure point — the MIGRATING state of the failed step,
with no inline retry — and the on-disk schema state reads back as that
MIGRATING state, left for recovery by a subsequent call. -/
theorem C7_failure_after_barrier
    (root now : String) (opts : MigrationRunOptions) (s : Store) (L C : String) (st0 : SchemaState)
    (hL : s.sessions = some L) (hC : s.schemaState = some C)
    (hparse : parseSchemaStateContent C = .ok st0)
    (hready : st0.status = .ready) (hver : st0.schemaVersion = 1)
    (htv : opts.targetVersion.getD CURRENT_SCHEMA_VERSION = 2)
    (hint : opts.interruptAfterStateWrite = true)
    (hnow : plainStr now = true) (hroot : plainStr root = true) :
    runMigrations opts now root s =
      (backupSessions (writeSchemaStateFile (activeStateFor (getStoragePaths root) now 1) s),
       .error .migrationFailed) ∧
    (runMigrations opts now root s).1.sessions = some L ∧
    (runMigrations opts now root s).1.stateWrites =
      s.stateWrites ++ [activeStateFor (getStoragePaths root) now 1] ∧
    readSchemaState (runMigrations opts now root s).1 =
      .ok (activeStateFor (getStoragePaths root) now 1) ∧
    (activeStateFor (getStoragePaths root) now 1).status = .migrating := by
  have hens := ensure_id now s (by simp [hC]) (by simp [hL])
  have hread : readSchemaState s = .ok st0 := by simp [readSchemaState, hC, hparse]
  have hin : ¬(opts.targetVersion.getD CURRENT_SCHEMA_VERSION > CURRENT_SCHEMA_VERSION ∨
      opts.targetVersion.getD CURRENT_SCHEMA_VERSION < 1) := by
    rw [htv]; decide
  have hmig : ¬(st0.status = SchemaStateStatus.migrating) := by rw [hready]; decide
  have hdg : ¬(st0.schemaVersion > opts.targetVersion.getD CURRENT_SCHEMA_VERSION) := by
    rw [hver, htv]; decide
  have hmain : runMigrations opts now root s =
      (backupSessions (writeSchemaStateFile (activeStateFor (getStoragePaths root) now 1) s),
       .error .migrationFailed) := by
    simp only [runMigrations, hens, hread]
    rw [if_neg hin, if_neg hmig]
    simp only [runMigrationsTail]
    rw [if_neg hdg, htv, hver, hint]
    rw [show ((2 : Int) - 1).toNat = 1 by decide]
    simp only [runMigrationSteps]
    rw [show MIGRATIONS (migrationIdChars 1 (1 + 1)) = some migrationV1toV2 from by
      rw [show (1 : Int) + 1 = 2 by decide, migrationIdChars_1_2]; rfl]
    simp only [if_true, activeStateFor]
  refine ⟨hmain, ?_, ?_, ?_, rfl⟩
  · rw [hmain]; simp [backupSessions, writeSchemaStateFile, hL]
  · rw [hmain]; simp [backupSessions, writeSchemaStateFile]
  · rw [hmain]
    simp only [backupSessions, writeSchemaStateFile, readSchemaState]
    exact parseSchemaStateContent_print _ (activeStateFor_plain root now hnow hroot)

def c7State : SchemaState := createReadyState 1 "2026-02-11T00:00:00.000Z"

def c7Store : Store :=
  { sessions := some "", schemaState := some (schemaStateContent c7State),
    backup := none, stateWrites := [] }

theorem C7_witness :
    runMigrations { interruptAfterStateWrite := true } "T" "/r" c7Store =
      (backupSessions (writeSchemaStateFile (activeStateFor (getStoragePaths "/r") "T" 1) c7Store),
       .error .migrationFailed) ∧
    (runMigrations { interruptAfterStateWrite := true } "T" "/r" c7Store).1.sessions = some "" ∧
    (runMigrations { interruptAfterStateWrite := true } "T" "/r" c7Store).1.stateWrites =
      c7Store.stateWrites ++ [activeStateFor (getStoragePaths "/r") "T" 1] ∧
    readSchemaState (runMigrations { interruptAfterStateWrite := true } "T" "/r" c7Store).1 =
      .ok (activeStateFor (getStoragePaths "/r") "T" 1) ∧
    (activeStateFor (getStoragePaths "/r") "T" 1).status = .migrating :=
  C7_failure_after_barrier "/r" "T" { interruptAfterStateWrite := true } c7Store ""
    (schemaStateContent c7State) c7State rfl rfl (by rfl) rfl rfl rfl rfl (by decide) (by decide)

/-- The schema-state invariant: READY states carry no migration
bookkeeping; MIGRATING states record exactly the one step from
`schemaVersion` to `schemaVersion + 1` under the id
`v{from}-to-v{to}`. -/
def stateInvariant (st : SchemaState) : Prop :=
  (st.status = .ready → st.targetVersion = none ∧ st.migrationId = none ∧ st.backupPath = none) ∧
  (st.status = .migrating → st.targetVersion = some (st.schemaVersion + 1) ∧
    st.migrationId = some (migrationIdChars st.schemaVersion (st.schemaVersion + 1)))

theorem stateInvariant_ready (v : Int) (now : String) : stateInvariant (createReadyState v now) :=
  ⟨fun _ => ⟨rfl, rfl, rfl⟩, fun h => absurd h (by simp [createReadyState])⟩

theorem stateInvariant_active (paths : StoragePaths) (now : String) (v : Int) :
    stateInvariant (activeStateFor paths now v) :=
  ⟨fun h => absurd h (by simp [activeStateFor]), fun _ => ⟨rfl, rfl⟩⟩

theorem writeFileAt_trace (p : StoragePaths) (s : Store) (path c : String) :
    (writeFileAt p s path c).stateWrites = s.stateWrites := by
  simp only [writeFileAt]
  split
  · rfl
  · split
    · rfl
    · split <;> rfl

theorem deleteFileAt_trace (p : StoragePaths) (s : Store) (path : String) :
    (deleteFileAt p s path).stateWrites = s.stateWrites := by
  simp only [deleteFileAt]
  split
  · rfl
  · split
    · rfl
    · split <;> rfl

theorem ensure_stateWrites (now : String) (s : Store) :
    (ensureStorageInitialized now s).stateWrites = s.stateWrites ∨
    (ensureStorageInitialized now s).stateWrites =
      s.stateWrites ++ [createReadyState CURRENT_SCHEMA_VERSION now] := by
  unfold ensureStorageInitialized
  cases h1 : s.schemaState.isSome with
  | true =>
    left
    simp only [h1]
    split
    · split <;> rfl
    · next hc => exact absurd trivial hc
  | false =>
    right
    simp only [h1]
    split
    · next hc => exact absurd hc (by decide)
    · split <;> rfl

theorem ensure_trace (now : String) (s : Store) (st : SchemaState)
    (h : st ∈ (ensureStorageInitialized now s).stateWrites) :
    st ∈ s.stateWrites ∨ stateInvariant st := by
  rcases ensure_stateWrites now s with he | he
  · rw [he] at h
    exact Or.inl h
  · rw [he] at h
    simp only [List.mem_append, List.mem_singleton] at h
    rcases h with h | rfl
    · exact Or.inl h
    · exact Or.inr (stateInvariant_ready _ _)

theorem migrationV1toV2_trace (s : Store) : (migrationV1toV2 s).1.stateWrites = s.stateWrites := by
  simp only [migrationV1toV2]
  cases hr : readSessionRecordsStore s <;> simp [hr, writeSessionsFile]

theorem MIGRATIONS_some {m : String} {f : Store → Store × Except StorageError Unit}
    (h : MIGRATIONS m = some f) : f = migrationV1toV2 := by
  simp only [MIGRATIONS] at h
  split at h
  · exact (Option.some.inj h).symm
  · exact Option.noConfusion h

theorem tryResult_trace (paths : StoragePaths) (now : String) (interrupt : Bool) (version : Int)
    (s s2 : Store) (r : Except StorageError Unit)
    (heq : (if interrupt then
        (backupSessions (writeSchemaStateFile (activeStateFor paths now version) s),
         Except.error StorageError.migrationInterrupted)
      else migrationV1toV2 (backupSessions (writeSchemaStateFile (activeStateFor paths now version) s)))
      = (s2, r)) :
    s2.stateWrites = s.stateWrites ++ [activeStateFor paths now version] := by
  cases interrupt
  · simp only [Bool.false_eq_true, if_false] at heq
    have h1 : s2.stateWrites = (migrationV1toV2 (backupSessions
        (writeSchemaStateFile (activeStateFor paths now version) s))).1.stateWrites := by
      rw [heq]
    rw [h1, migrationV1toV2_trace]
    rfl
  · simp only [if_true] at heq
    have h1 : s2 = backupSessions (writeSchemaStateFile (activeStateFor paths now version) s) := by
      injection heq with ha hb
      exact ha.symm
    rw [h1]
    rfl

theorem runMigrationSteps_trace (paths : StoragePaths) (now : String) (interrupt : Bool) :
    ∀ (fuel : Nat) (version : Int) (applied : List String) (s : Store) (st : SchemaState),
      st ∈ (runMigrationSteps paths now interrupt fuel version applied s).1.stateWrites →
      st ∈ s.stateWrites ∨ stateInvariant st
  | 0, _, _, _, _, h => Or.inl h
  | Nat.succ fuel, version, applied, s, st, h => by
    simp only [runMigrationSteps] at h
    cases hm : MIGRATIONS (migrationIdChars version (version + 1)) with
    | none => simp only [hm] at h; exact Or.inl h
    | some migrate =>
      obtain rfl : migrate = migrationV1toV2 := MIGRATIONS_some hm
      simp only [hm] at h
      split at h
      · next s2 e heq =>
        replace h : st ∈ s2.stateWrites := h
        rw [tryResult_trace paths now interrupt version s s2 _ heq] at h
        simp only [List.mem_append, List.mem_singleton] at h
        rcases h with h | rfl
        · exact Or.inl h
        · exact Or.inr (stateInvariant_active paths now version)
      · next s2 heq =>
        rcases runMigrationSteps_trace paths now interrupt fuel (version + 1) _ _ st h
          with h2 | h2
        · rw [deleteFileAt_trace] at h2
          replace h2 : st ∈ s2.stateWrites ++ [createReadyState (version + 1) now] := h2
          simp only [List.mem_append, List.mem_singleton] at h2
          rcases h2 with h2 | rfl
          · rw [tryResult_trace paths now interrupt version s s2 _ heq] at h2
            simp only [List.mem_append, List.mem_singleton] at h2
            rcases h2 with h2 | rfl
            · exact Or.inl h2
            · exact Or.inr (stateInvariant_active paths now version)
          · exact Or.inr (stateInvariant_ready _ _)
        · exact Or.inr h2

theorem runMigrationsTail_trace (paths : StoragePaths) (now : String) (opts : MigrationRunOptions)
    (recovered : Bool) (state : SchemaState) (s : Store) (st : SchemaState)
    (h : st ∈ (runMigrationsTail paths now opts recovered state s).1.stateWrites) :
    st ∈ s.stateWrites ∨ stateInvariant st := by
  simp only [runMigrationsTail] at h
  split at h
  · exact Or.inl h
  · split at h
    · next s2 e heq =>
      exact runMigrationSteps_trace paths now _ _ _ _ _ st (by rw [heq]; exact h)
    · next s2 applied heq =>
      split at h <;>
        exact runMigrationSteps_trace paths now _ _ _ _ _ st (by rw [heq]; exact h)

theorem recover_trace (paths : StoragePaths) (state : SchemaState) (now : String) (s : Store)
    (st : SchemaState)
    (h : st ∈ (recoverInterruptedMigration paths state now s).1.stateWrites) :
    st ∈ s.stateWrites ∨ stateInvariant st := by
  simp only [recoverInterruptedMigration] at h
  cases hbp : state.backupPath with
  | none => simp only [hbp] at h; exact Or.inl h
  | some bp =>
    simp only [hbp] at h
    cases hfc : fileContentAt paths s bp with
    | none => simp only [hfc] at h; exact Or.inl h
    | some content =>
      simp only [hfc] at h
      rw [deleteFileAt_trace] at h
      replace h : st ∈ (writeFileAt paths s paths.sessionsFile content).stateWrites ++
          [createReadyState state.schemaVersion now] := h
      simp only [List.mem_append, List.mem_singleton] at h
      rcases h with h | rfl
      · rw [writeFileAt_trace] at h
        exact Or.inl h
      · exact Or.inr (stateInvariant_ready _ _)

/-- C8: every schema state the engine ever writes — over any run of
`runMigrations`, `checkSessionIntegrity`, `compactSessions` or
`writeSessionRecords`, as recorded on the store's write trace — either
was already on the trace before the call or satisfies the invariant:
READY states carry `targetVersion = migrationId = backupPath = none`,
and MIGRATING states carry `targetVersion = schemaVersion + 1` and
`migrationId = "v{schemaVersion}-to-v{schemaVersion+1}"`, so at most
one migration step is ever recorded as in flight. -/
theorem C8_state_write_invariant
    (opts : MigrationRunOptions) (now root : String) (s : Store)
    (records : List SessionRecord) (st : SchemaState) :
    (st ∈ (runMigrations opts now root s).1.stateWrites →
      st ∈ s.stateWrites ∨ stateInvariant st) ∧
    (st ∈ (checkSessionIntegrity now s).1.stateWrites →
      st ∈ s.stateWrites ∨ stateInvariant st) ∧
    (st ∈ (compactSessions now s).1.stateWrites →
      st ∈ s.stateWrites ∨ stateInvariant st) ∧
    (st ∈ (writeSessionRecords now records s).1.stateWrites →
      st ∈ s.stateWrites ∨ stateInvariant st) := by
  refine ⟨?_, ?_, ?_, ?_⟩
  · intro h
    simp only [runMigrations] at h
    cases hrs : readSchemaState (ensureStorageInitialized now s) with
    | error e =>
      simp only [hrs] at h
      exact ensure_trace now s st h
    | ok state0 =>
      simp only [hrs] at h
      split at h
      · exact ensure_trace now s st h
      · split at h
        · rcases hrec : recoverInterruptedMigration (getStoragePaths root) state0 now
            (ensureStorageInitialized now s) with ⟨s1, res⟩
          simp only [hrec] at h
          cases res with
          | error e =>
            rcases recover_trace (getStoragePaths root) state0 now _ st
                (by rw [hrec]; exact h) with h2 | h2
            · exact ensure_trace now s st h2
            · exact Or.inr h2
          | ok u =>
            cases u
            cases hrs1 : readSchemaState s1 with
            | error e =>
              simp only [hrs1] at h
              rcases recover_trace (getStoragePaths root) state0 now _ st
                  (by rw [hrec]; exact h) with h2 | h2
              · exact ensure_trace now s st h2
              · exact Or.inr h2
            | ok state1 =>
              simp only [hrs1] at h
              rcases runMigrationsTail_trace (getStoragePaths root) now opts true state1 s1 st h
                  with h2 | h2
              · rcases recover_trace (getStoragePaths root) state0 now _ st
                    (by rw [hrec]; exact h2) with h3 | h3
                · exact ensure_trace now s st h3
                · exact Or.inr h3
              · exact Or.inr h2
        · rcases runMigrationsTail_trace (getStoragePaths root) now opts false state0 _ st h
              with h2 | h2
          · exact ensure_trace now s st h2
          · exact Or.inr h2
  · intro h
    simp only [checkSessionIntegrity] at h
    cases hrs : readSchemaState (ensureStorageInitialized now s) with
    | error e =>
      simp only [hrs] at h
      exact ensure_trace now s st h
    | ok state =>
      simp only [hrs] at h
      cases hrr : readSessionRecordsStore (ensureStorageInitialized now s) with
      | error e =>
        simp only [hrr] at h
        exact ensure_trace now s st h
      | ok recs =>
        simp only [hrr] at h
        exact ensure_trace now s st h
  · intro h
    simp only [compactSessions] at h
    cases hrs : readSchemaState (ensureStorageInitialized now s) with
    | error e =>
      simp only [hrs] at h
      exact ensure_trace now s st h
    | ok state =>
      simp only [hrs] at h
      cases hrr : readSessionRecordsStore (ensureStorageInitialized now s) with
      | error e =>
        simp only [hrr] at h
        exact ensure_trace now s st h
      | ok recs =>
        simp only [hrr] at h
        replace h : st ∈ (ensureStorageInitialized now s).stateWrites := h
        exact ensure_trace now s st h
  · intro h
    simp only [writeSessionRecords] at h
    cases hrs : readSchemaState (ensureStorageInitialized now s) with
    | error e =>
      simp only [hrs] at h
      exact ensure_trace now s st h
    | ok state =>
      simp only [hrs] at h
      replace h : st ∈ (ensureStorageInitialized now s).stateWrites := h
      exact ensure_trace now s st h

def c8State : SchemaState := createReadyState 1 "2026-02-11T00:00:00.000Z"

def c8Store : Store :=
  { sessions := some "", schemaState := some (schemaStateContent c8State),
    backup := none, stateWrites := [] }

theorem C8_witness :
    activeStateFor (getStoragePaths "/r") "T" 1 ∈
      (runMigrations { interruptAfterStateWrite := true } "T" "/r" c8Store).1.stateWrites ∧
    (activeStateFor (getStoragePaths "/r") "T" 1 ∈ c8Store.stateWrites ∨
      stateInvariant (activeStateFor (getStoragePaths "/r") "T" 1)) :=
  ⟨by decide,
   (C8_state_write_invariant { interruptAfterStateWrite := true } "T" "/r" c8Store []
     (activeStateFor (getStoragePaths "/r") "T" 1)).1 (by decide)⟩

/-! ## Checksums of normalized records -/

theorem processChunk_length (h chunk : List Nat) : (processChunk h chunk).length = 8 := by
  simp only [processChunk]
  rfl

theorem foldl_processChunk_length (chunks : List (List Nat)) :
    ∀ (h : List Nat), h.length = 8 → (chunks.foldl processChunk h).length = 8 := by
  induction chunks with
  | nil => exact fun _ hh => hh
  | cons c cs ih =>
    intro h hh
    rw [List.foldl_cons]
    exact ih (processChunk h c) (processChunk_length h c)

theorem sha256Words_length (bytes : List Nat) : (sha256Words bytes).length = 8 := by
  simp only [sha256Words]
  exact foldl_processChunk_length _ _ (by decide)

theorem sha256Hex_ne_empty (s : String) : sha256Hex s ≠ "" := by
  intro h
  have hlen := sha256Words_length (strBytes s)
  cases hw : sha256Words (strBytes s) with
  | nil => rw [hw] at hlen; simp at hlen
  | cons w ws =>
    have hd : (sha256Words (strBytes s)).flatMap natHex8 = [] := congrArg String.data h
    rw [hw] at hd
    simp [natHex8] at hd

theorem computeChecksum_ne_empty (id upd : String) (p : Json) (d : Bool) :
    computeChecksum id upd p d ≠ "" := sha256Hex_ne_empty _

theorem plainChar_hex (m : Nat) (hm : m < 16) : plainChar (hexDigitChar m) = true := by
  interval_cases m <;> decide

theorem plainList_append (a b : List Char) :
    plainList (a ++ b) = (plainList a && plainList b) := by
  simp [plainList, List.all_append]

theorem plainList_natHex8 (n : Nat) : plainList (natHex8 n) = true := by
  simp only [natHex8, plainList, List.all_cons, List.all_nil, Bool.and_true, Bool.and_eq_true]
  refine ⟨?_, ?_, ?_, ?_, ?_, ?_, ?_, ?_⟩ <;> exact plainChar_hex _ (Nat.mod_lt _ (by decide))

theorem plainList_flatMapHex : ∀ (l : List Nat), plainList (l.flatMap natHex8) = true
  | [] => rfl
  | n :: rest => by
    rw [List.flatMap_cons, plainList_append, plainList_natHex8 n, plainList_flatMapHex rest]
    rfl

theorem plainStr_sha256Hex (s : String) : plainStr (sha256Hex s) = true := by
  simp only [sha256Hex, plainStr]
  exact plainList_flatMapHex _

theorem plainStr_computeChecksum (id upd : String) (p : Json) (d : Bool) :
    plainStr (computeChecksum id upd p d) = true := plainStr_sha256Hex _

theorem normalize_two (r : SessionRecord) :
    normalizeRecordForSchema r 2 =
      { id := r.id, updatedAt := r.updatedAt, payload := r.payload, deleted := r.deleted,
        checksum := some (computeChecksum r.id r.updatedAt r.payload (r.deleted.getD false)) } := by
  simp [normalizeRecordForSchema]

theorem recordPlain_normalize (r : SessionRecord) (h : recordPlain r = true) :
    recordPlain (normalizeRecordForSchema r 2) = true := by
  rw [normalize_two]
  simp only [recordPlain, Bool.and_eq_true] at h ⊢
  exact ⟨⟨⟨h.1.1.1, h.1.1.2⟩, h.1.2⟩, plainStr_computeChecksum _ _ _ _⟩

theorem recordIssues_normalized (line : Nat) (r : SessionRecord)
    (hid : ¬(trimChars r.id.data = [])) (hupd : ¬(trimChars r.updatedAt.data = [])) :
    recordIssues 2 line (normalizeRecordForSchema r 2) = [] := by
  rw [normalize_two]
  simp only [recordIssues]
  rw [if_neg hid, if_neg hupd, if_pos (by decide : (2 : Int) ≥ 2),
    if_neg (computeChecksum_ne_empty r.id r.updatedAt r.payload (r.deleted.getD false)),
    if_neg (fun hne => hne rfl)]
  rfl

theorem integrityIssuesFrom_normalized :
    ∀ (line : Nat) (records : List SessionRecord),
      (∀ r ∈ records, ¬(trimChars r.id.data = []) ∧ ¬(trimChars r.updatedAt.data = [])) →
      integrityIssuesFrom 2 line (records.map (normalizeRecordForSchema · 2)) = []
  | _, [], _ => rfl
  | line, r :: rest, h => by
    simp only [List.map_cons, integrityIssuesFrom]
    rw [recordIssues_normalized line r (h r (by simp)).1 (h r (by simp)).2,
      integrityIssuesFrom_normalized (line + 1) rest (fun x hx => h x (by simp [hx]))]
    rfl

theorem recordIssues_checksum_invalid (v : Int) (line : Nat) (r : SessionRecord) (c : String)
    (hv : v ≥ 2) (hc : r.checksum = some c) (hne : ¬(c = ""))
    (hbad : ¬(c = computeChecksum r.id r.updatedAt r.payload (r.deleted.getD false))) :
    ({ code := "CHECKSUM_INVALID", message := "Checksum validation failed", line := some line } :
      IntegrityIssue) ∈ recordIssues v line r := by
  simp only [recordIssues, hc]
  rw [if_pos hv, if_neg hne, if_pos hbad]
  exact List.mem_append.mpr (Or.inr (by simp))

theorem mem_integrityIssuesFrom (v : Int) :
    ∀ (line : Nat) (records : List SessionRecord) (i : Nat) (h : i < records.length)
      (issue : IntegrityIssue),
      issue ∈ recordIssues v (line + i) (records.get ⟨i, h⟩) →
      issue ∈ integrityIssuesFrom v line records
  | line, r :: rest, 0, h, issue, hm => by
    simp only [integrityIssuesFrom]
    exact List.mem_append.mpr (Or.inl (by simpa using hm))
  | line, r :: rest, Nat.succ i, h, issue, hm => by
    simp only [integrityIssuesFrom]
    refine List.mem_append.mpr (Or.inr ?_)
    refine mem_integrityIssuesFrom v (line + 1) rest i (by simpa using h) issue ?_
    rw [show line + 1 + i = line + (i + 1) from by omega]
    simpa using hm

/-- C5: for schema ≥ 2, a record's checksum is the SHA-256 content hash
of the canonical key-sorted serialization of
`(id, updatedAt, payload, deleted)` — first conjunct; a store whose log
holds records normalized to schema 2 (as a fresh migration writes them)
with a READY version-2 state is reported healthy with zero issues —
second conjunct; and a record whose stored checksum differs from the
recomputed one is flagged `CHECKSUM_INVALID` at its line — third
conjunct. -/
theorem C5_checksum_round_trip :
    (∀ (id updatedAt : String) (payload : Json) (deleted : Bool),
      computeChecksum id updatedAt payload deleted =
        sha256Hex (stableStringify (.obj [("id", .str id), ("updatedAt", .str updatedAt),
          ("payload", payload), ("deleted", .bool deleted)]))) ∧
    (∀ (now : String) (s : Store) (C : String) (st : SchemaState) (records : List SessionRecord),
      s.sessions = some (sessionsContent (records.map (normalizeRecordForSchema · 2))) →
      s.schemaState = some C → parseSchemaStateContent C = .ok st → st.schemaVersion = 2 →
      (∀ r ∈ records, recordPlain r = true) →
      (∀ r ∈ records, ¬(trimChars r.id.data = []) ∧ ¬(trimChars r.updatedAt.data = [])) →
      (checkSessionIntegrity now s).2 =
        .ok { healthy := true, schemaVersion := 2, issueCount := 0, issues := [] }) ∧
    (∀ (now : String) (s : Store) (C : String) (st : SchemaState) (records : List SessionRecord)
        (i : Nat) (hi : i < records.length) (c : String),
      s.sessions = some (sessionsContent records) →
      s.schemaState = some C → parseSchemaStateContent C = .ok st → st.schemaVersion ≥ 2 →
      (∀ r ∈ records, recordPlain r = true) →
      (records.get ⟨i, hi⟩).checksum = some c → ¬(c = "") →
      ¬(c = computeChecksum (records.get ⟨i, hi⟩).id (records.get ⟨i, hi⟩).updatedAt
          (records.get ⟨i, hi⟩).payload ((records.get ⟨i, hi⟩).deleted.getD false)) →
      ∃ report, (checkSessionIntegrity now s).2 = .ok report ∧
        ({ code := "CHECKSUM_INVALID", message := "Checksum validation failed",
           line := some (1 + i) } : IntegrityIssue) ∈ report.issues) := by
  refine ⟨fun _ _ _ _ => rfl, ?_, ?_⟩
  · intro now s C st records hsess hC hparse hv hplain hvalid
    have hens := ensure_id now s (by simp [hC]) (by simp [hsess])
    have hplain2 : ∀ r ∈ records.map (normalizeRecordForSchema · 2), recordPlain r = true := by
      intro r hr
      simp only [List.mem_map] at hr
      obtain ⟨r0, hr0, rfl⟩ := hr
      exact recordPlain_normalize r0 (hplain r0 hr0)
    have hst : readSchemaState s = .ok st := by simp [readSchemaState, hC, hparse]
    have hread : readSessionRecordsStore s = .ok (records.map (normalizeRecordForSchema · 2)) := by
      simp [readSessionRecordsStore, hsess, parseSessionsContent_print _ hplain2]
    simp only [checkSessionIntegrity, hens, hst, hread, hv,
      integrityIssuesFrom_normalized 1 records hvalid]
    rfl
  · intro now s C st records i hi c hsess hC hparse hv hplain hc hne hbad
    have hens := ensure_id now s (by simp [hC]) (by simp [hsess])
    have hst : readSchemaState s = .ok st := by simp [readSchemaState, hC, hparse]
    have hread : readSessionRecordsStore s = .ok records := by
      simp [readSessionRecordsStore, hsess, parseSessionsContent_print _ hplain]
    refine ⟨{ healthy := (integrityIssuesFrom st.schemaVersion 1 records).isEmpty,
               schemaVersion := st.schemaVersion,
               issueCount := (integrityIssuesFrom st.schemaVersion 1 records).length,
               issues := integrityIssuesFrom st.schemaVersion 1 records }, ?_, ?_⟩
    · simp only [checkSessionIntegrity, hens, hst, hread]
    · exact mem_integrityIssuesFrom st.schemaVersion 1 records i hi _
        (recordIssues_checksum_invalid st.schemaVersion (1 + i) _ c hv hc hne hbad)

def c5State : SchemaState := createReadyState 2 "2026-02-11T00:00:00.000Z"

def c5rec : SessionRecord :=
  { id := "s1", updatedAt := "2026-01-01T00:00:00.000Z",
    payload := .obj [("topic", .str "alpha")], deleted := none, checksum := none }

def c5Store : Store :=
  { sessions := some (sessionsContent ([c5rec].map (normalizeRecordForSchema · 2))),
    schemaState := some (schemaStateContent c5State), backup := none, stateWrites := [] }

def c5bad : SessionRecord :=
  { id := "s1", updatedAt := "2026-01-01T00:00:00.000Z",
    payload := .obj [("topic", .str "alpha")], deleted := none, checksum := some "deadbeef" }

def c5bStore : Store :=
  { sessions := some (sessionsContent [c5bad]),
    schemaState := some (schemaStateContent c5State), backup := none, stateWrites := [] }

theorem C5_witness :
    (checkSessionIntegrity "T" c5Store).2 =
      .ok { healthy := true, schemaVersion := 2, issueCount := 0, issues := [] } ∧
    (∃ report, (checkSessionIntegrity "T" c5bStore).2 = .ok report ∧
      ({ code := "CHECKSUM_INVALID", message := "Checksum validation failed",
         line := some (1 + 0) } : IntegrityIssue) ∈ report.issues) :=
  ⟨C5_checksum_round_trip.2.1 "T" c5Store (schemaStateContent c5State) c5State [c5rec]
     rfl rfl (by rfl) rfl (by decide) (by decide),
   C5_checksum_round_trip.2.2 "T" c5bStore (schemaStateContent c5State) c5State [c5bad]
     0 (by decide) "deadbeef" rfl rfl (by rfl) (by decide) (by decide) rfl (by decide) (by decide)⟩

/-! ## Compaction: the last-occurrence map -/

/-- Lookup in the JS-Map model by key. -/
def lookupKey (m : List (String × SessionRecord)) (k : String) : Option SessionRecord :=
  (m.find? (fun kv => kv.1 = k)).map (·.2)

/-- The last physical occurrence of id `k` in the log. -/
def lastWith (l : List SessionRecord) (k : String) : Option SessionRecord :=
  (l.filter (fun r => r.id = k)).getLast?

theorem lookup_update :
    ∀ (m : List (String × SessionRecord)) (k : String) (v : SessionRecord),
      m.any (fun kv => kv.1 = k) = true →
      (m.map (fun kv => if kv.1 = k then (k, v) else kv)).find? (fun kv => kv.1 = k) = some (k, v)
  | kv :: rest, k, v, hany => by
    simp only [List.map_cons]
    by_cases hk : kv.1 = k
    · rw [if_pos hk]
      simp [List.find?]
    · rw [if_neg hk]
      rw [List.find?, show (decide (kv.1 = k)) = false by simp [hk]]
      have hany' : rest.any (fun kv => kv.1 = k) = true := by
        simp only [List.any_cons, Bool.or_eq_true, decide_eq_true_eq] at hany
        rcases hany with h | h
        · exact absurd h hk
        · exact h
      exact lookup_update rest k v hany'

theorem lookupKey_mapSet_self (m : List (String × SessionRecord)) (k : String) (v : SessionRecord) :
    lookupKey (mapSet m k v) k = some v := by
  simp only [mapSet, lookupKey]
  by_cases hany : m.any (fun kv => kv.1 = k) = true
  · rw [if_pos hany, lookup_update m k v hany]
    rfl
  · rw [if_neg hany, List.find?_append,
      List.find?_eq_none.mpr (fun x hx hpx => hany (List.any_eq_true.mpr ⟨x, hx, hpx⟩))]
    simp [List.find?]

theorem find?_update_ne (k k' : String) (v : SessionRecord) (hne : ¬(k' = k)) :
    ∀ (m : List (String × SessionRecord)),
      (m.map (fun kv => if kv.1 = k then (k, v) else kv)).find? (fun kv => kv.1 = k') =
        m.find? (fun kv => kv.1 = k')
  | [] => rfl
  | kv :: rest => by
    simp only [List.map_cons]
    by_cases hk : kv.1 = k
    · rw [if_pos hk,
        List.find?_cons_of_neg _ (by simp only [decide_eq_true_eq]; exact fun h => hne h.symm),
        List.find?_cons_of_neg _ (by
          simp only [decide_eq_true_eq, hk]
          exact fun h => hne h.symm)]
      exact find?_update_ne k k' v hne rest
    · rw [if_neg hk]
      by_cases hk' : kv.1 = k'
      · rw [List.find?_cons_of_pos _ (by simp [hk']), List.find?_cons_of_pos _ (by simp [hk'])]
      · rw [List.find?_cons_of_neg _ (by simp [hk']), List.find?_cons_of_neg _ (by simp [hk'])]
        exact find?_update_ne k k' v hne rest

theorem lookupKey_mapSet_ne (m : List (String × SessionRecord)) (k k' : String) (v : SessionRecord)
    (hne : ¬(k' = k)) : lookupKey (mapSet m k v) k' = lookupKey m k' := by
  simp only [mapSet, lookupKey]
  by_cases hany : m.any (fun kv => kv.1 = k) = true
  · rw [if_pos hany, find?_update_ne k k' v hne m]
  · rw [if_neg hany, List.find?_append]
    have hnone : List.find? (fun kv => kv.1 = k') [(k, v)] = none := by
      rw [List.find?_cons_of_neg _ (by simp only [decide_eq_true_eq]; exact fun h => hne h.symm)]
      rfl
    rw [hnone, Option.or_none]

theorem lastWith_cons_ne (r : SessionRecord) (rest : List SessionRecord) (k : String)
    (h : ¬(r.id = k)) : lastWith (r :: rest) k = lastWith rest k := by
  simp [lastWith, List.filter_cons, h]

theorem lastWith_cons_none (r : SessionRecord) (rest : List SessionRecord) (k : String)
    (h : r.id = k) (hrest : lastWith rest k = none) : lastWith (r :: rest) k = some r := by
  simp only [lastWith, List.filter_cons, h, eq_self_iff_true, decide_True, if_true] at hrest ⊢
  rw [List.getLast?_eq_none_iff.mp hrest]
  rfl

theorem lastWith_cons_some (r r2 : SessionRecord) (rest : List SessionRecord) (k : String)
    (h : r.id = k) (hrest : lastWith rest k = some r2) : lastWith (r :: rest) k = some r2 := by
  simp only [lastWith, List.filter_cons, h, eq_self_iff_true, decide_True, if_true] at hrest ⊢
  cases hf : rest.filter (fun x => x.id = k) with
  | nil => rw [hf] at hrest; exact Option.noConfusion hrest
  | cons y ys =>
    rw [hf] at hrest
    rw [List.getLast?_cons_cons, hrest]

theorem latestByIdMap_lookup :
    ∀ (l : List SessionRecord) (m : List (String × SessionRecord)) (k : String),
      lookupKey (latestByIdMap l m) k =
        (match lastWith l k with
         | some r => some r
         | none => lookupKey m k)
  | [], m, k => by simp [latestByIdMap, lastWith]
  | r :: rest, m, k => by
    simp only [latestByIdMap]
    rw [latestByIdMap_lookup rest (mapSet m r.id r) k]
    by_cases hid : r.id = k
    · cases hlast : lastWith rest k with
      | some r2 => rw [lastWith_cons_some r r2 rest k hid hlast]
      | none =>
        rw [lastWith_cons_none r rest k hid hlast]
        simp only [hid]
        exact lookupKey_mapSet_self m k r
    · cases hlast : lastWith rest k with
      | some r2 => rw [lastWith_cons_ne r rest k hid, hlast]
      | none =>
        rw [lastWith_cons_ne r rest k hid, hlast]
        exact lookupKey_mapSet_ne m r.id k r (fun h => hid h.symm)

theorem mapSet_id_inv (m : List (String × SessionRecord)) (r : SessionRecord)
    (h : ∀ kv ∈ m, kv.2.id = kv.1) : ∀ kv ∈ mapSet m r.id r, kv.2.id = kv.1 := by
  intro kv hkv
  simp only [mapSet] at hkv
  split at hkv
  · simp only [List.mem_map] at hkv
    obtain ⟨kv0, hkv0, rfl⟩ := hkv
    by_cases hk : kv0.1 = r.id
    · rw [if_pos hk]
    · rw [if_neg hk]
      exact h kv0 hkv0
  · simp only [List.mem_append, List.mem_singleton] at hkv
    rcases hkv with hkv | rfl
    · exact h kv hkv
    · rfl

theorem latestByIdMap_id_inv :
    ∀ (l : List SessionRecord) (m : List (String × SessionRecord)),
      (∀ kv ∈ m, kv.2.id = kv.1) → ∀ kv ∈ latestByIdMap l m, kv.2.id = kv.1
  | [], _, h => h
  | r :: rest, m, h =>
    latestByIdMap_id_inv rest (mapSet m r.id r) (mapSet_id_inv m r h)

theorem mapSet_keys (m : List (String × SessionRecord)) (k : String) (v : SessionRecord) :
    (mapSet m k v).map (·.1) = m.map (·.1) ∨
    ((mapSet m k v).map (·.1) = m.map (·.1) ++ [k] ∧ ¬(k ∈ m.map (·.1))) := by
  simp only [mapSet]
  by_cases hany : m.any (fun kv => kv.1 = k) = true
  · left
    rw [if_pos hany, List.map_map]
    apply List.map_congr_left
    intro kv _
    by_cases hk : kv.1 = k
    · simp [hk]
    · simp [hk]
  · right
    rw [if_neg hany]
    refine ⟨by simp, ?_⟩
    intro hk
    simp only [List.mem_map] at hk
    obtain ⟨kv, hkv, hkv1⟩ := hk
    exact hany (List.any_eq_true.mpr ⟨kv, hkv, by simp [hkv1]⟩)

theorem latestByIdMap_keys_nodup :
    ∀ (l : List SessionRecord) (m : List (String × SessionRecord)),
      (m.map (·.1)).Nodup → ((latestByIdMap l m).map (·.1)).Nodup
  | [], _, h => h
  | r :: rest, m, h => by
    apply latestByIdMap_keys_nodup rest
    rcases mapSet_keys m r.id r with he | ⟨he, hnm⟩
    · rw [he]; exact h
    · rw [he]
      simp [List.nodup_append, h, hnm]

theorem lookupKey_mem (m : List (String × SessionRecord)) (k : String) (r : SessionRecord)
    (h : lookupKey m k = some r) : (k, r) ∈ m := by
  simp only [lookupKey] at h
  cases hf : m.find? (fun kv => kv.1 = k) with
  | none => rw [hf] at h; exact Option.noConfusion h
  | some kv =>
    obtain ⟨k1, r1⟩ := kv
    rw [hf] at h
    have hm := List.mem_of_find?_eq_some hf
    have hp := List.find?_some hf
    simp only [decide_eq_true_eq] at hp
    have h2 : r1 = r := Option.some.inj h
    rw [← hp, ← h2]
    exact hm

theorem mem_lookupKey :
    ∀ (m : List (String × SessionRecord)) (k : String) (r : SessionRecord),
      (m.map (·.1)).Nodup → (k, r) ∈ m → lookupKey m k = some r
  | kv :: rest, k, r, hnd, hm => by
    have hnd2 : (kv.1 :: rest.map fun x => x.1).Nodup := by simpa using hnd
    have hcons := List.nodup_cons.mp hnd2
    simp only [List.mem_cons] at hm
    rcases hm with rfl | hm
    · rw [lookupKey, List.find?_cons_of_pos _ (by simp)]
      rfl
    · have hk : ¬(kv.1 = k) := by
        intro he
        exact hcons.1 (he ▸ List.mem_map.mpr ⟨(k, r), hm, rfl⟩)
      rw [lookupKey, List.find?_cons_of_neg _ (by simp [hk])]
      exact mem_lookupKey rest k r hcons.2 hm

theorem latestByIdMap_mem_iff (l : List SessionRecord) (k : String) (r : SessionRecord) :
    (k, r) ∈ latestByIdMap l [] ↔ lastWith l k = some r := by
  constructor
  · intro hm
    have hlk := mem_lookupKey (latestByIdMap l []) k r
      (latestByIdMap_keys_nodup l [] (by simp)) hm
    rw [latestByIdMap_lookup l [] k] at hlk
    cases hlast : lastWith l k with
    | none =>
      rw [hlast] at hlk
      simp [lookupKey, List.find?] at hlk
    | some r2 =>
      rw [hlast] at hlk
      obtain rfl : r2 = r := Option.some.inj hlk
      rfl
  · intro hlast
    have hlk : lookupKey (latestByIdMap l []) k = some r := by
      rw [latestByIdMap_lookup l [] k, hlast]
    exact lookupKey_mem _ k r hlk

theorem lastWith_id (l : List SessionRecord) (k : String) (r : SessionRecord)
    (h : lastWith l k = some r) : r.id = k := by
  have hm := List.mem_of_mem_getLast? h
  simp only [List.mem_filter, decide_eq_true_eq] at hm
  exact hm.2

theorem lastWith_mem (l : List SessionRecord) (k : String) (r : SessionRecord)
    (h : lastWith l k = some r) : r ∈ l := by
  have hm := List.mem_of_mem_getLast? h
  simp only [List.mem_filter] at hm
  exact hm.1

theorem mapSet_length (m : List (String × SessionRecord)) (k : String) (v : SessionRecord) :
    (mapSet m k v).length ≤ m.length + 1 := by
  simp only [mapSet]
  split
  · simp
  · simp

theorem latestByIdMap_length :
    ∀ (l : List SessionRecord) (m : List (String × SessionRecord)),
      (latestByIdMap l m).length ≤ m.length + l.length
  | [], m => by simp [latestByIdMap]
  | r :: rest, m => by
    have h1 := latestByIdMap_length rest (mapSet m r.id r)
    have h2 := mapSet_length m r.id r
    simp only [latestByIdMap, List.length_cons]
    omega

theorem compactRecords_length_le (records : List SessionRecord) (v : Int) :
    (compactRecords records v).length ≤ records.length := by
  have h1 := List.length_filter_le (fun r => !(r.deleted.getD false))
    ((latestByIdMap records []).map (fun kv => kv.2))
  have h2 := latestByIdMap_length records []
  simp only [compactRecords, List.length_map, List.length_nil] at h1 h2 ⊢
  omega

theorem normalize_ge (r : SessionRecord) (v : Int) (hv : v ≥ 2) :
    normalizeRecordForSchema r v =
      { id := r.id, updatedAt := r.updatedAt, payload := r.payload, deleted := r.deleted,
        checksum := some (computeChecksum r.id r.updatedAt r.payload (r.deleted.getD false)) } := by
  simp [normalizeRecordForSchema, hv]

theorem normalize_lt (r : SessionRecord) (v : Int) (hv : ¬(v ≥ 2)) :
    normalizeRecordForSchema r v =
      { id := r.id, updatedAt := r.updatedAt, payload := r.payload, deleted := r.deleted,
        checksum := none } := by
  simp [normalizeRecordForSchema, hv]

theorem normalize_id (r : SessionRecord) (v : Int) :
    (normalizeRecordForSchema r v).id = r.id := by
  by_cases hv : v ≥ 2
  · rw [normalize_ge r v hv]
  · rw [normalize_lt r v hv]

theorem normalize_deleted (r : SessionRecord) (v : Int) :
    (normalizeRecordForSchema r v).deleted = r.deleted := by
  by_cases hv : v ≥ 2
  · rw [normalize_ge r v hv]
  · rw [normalize_lt r v hv]

theorem normalizeSchema_idem (r : SessionRecord) (v : Int) :
    normalizeRecordForSchema (normalizeRecordForSchema r v) v = normalizeRecordForSchema r v := by
  by_cases hv : v ≥ 2
  · rw [normalize_ge r v hv, normalize_ge _ v hv]
  · rw [normalize_lt r v hv, normalize_lt _ v hv]

theorem map_self {α : Type} (l : List α) (f : α → α) (h : ∀ x ∈ l, f x = x) : l.map f = l := by
  induction l with
  | nil => rfl
  | cons a as ih =>
    simp only [List.map_cons, h a (by simp), ih (fun x hx => h x (by simp [hx]))]

theorem latestByIdMap_pairwise :
    ∀ (l : List SessionRecord) (m : List (String × SessionRecord)),
      l.Pairwise (fun a b => a.id ≠ b.id) →
      (∀ r ∈ l, m.any (fun kv => kv.1 = r.id) = false) →
      latestByIdMap l m = m ++ l.map (fun r => (r.id, r))
  | [], m, _, _ => by simp [latestByIdMap]
  | r :: rest, m, hp, hdisj => by
    have hany : m.any (fun kv => kv.1 = r.id) = false := hdisj r (by simp)
    have hset : mapSet m r.id r = m ++ [(r.id, r)] := by
      simp only [mapSet, hany, Bool.false_eq_true, if_false]
    have hdisj2 : ∀ x ∈ rest, (m ++ [(r.id, r)]).any (fun kv => kv.1 = x.id) = false := by
      intro x hx
      rw [List.any_append]
      have h1 := hdisj x (by simp [hx])
      have hne : ¬(r.id = x.id) := (List.pairwise_cons.mp hp).1 x hx
      simp [h1, hne]
    have hrest := latestByIdMap_pairwise rest (m ++ [(r.id, r)]) (List.pairwise_cons.mp hp).2 hdisj2
    simp only [latestByIdMap, hset, hrest, List.map_cons]
    simp [List.append_assoc]

theorem compactRecords_fixed (l : List SessionRecord) (v : Int)
    (hdist : l.Pairwise (fun a b => a.id ≠ b.id))
    (hlive : ∀ r ∈ l, (r.deleted.getD false) = false)
    (hnorm : ∀ r ∈ l, normalizeRecordForSchema r v = r) :
    compactRecords l v = l := by
  simp only [compactRecords]
  rw [latestByIdMap_pairwise l [] hdist (fun r _ => rfl)]
  rw [List.nil_append, List.map_map]
  rw [show ((fun kv => kv.2) ∘ fun r => (r.id, r)) = (fun r : SessionRecord => r) from rfl]
  rw [map_self l _ (fun x _ => rfl)]
  rw [List.filter_eq_self.mpr (fun x hx => by simp [hlive x hx])]
  exact map_self l _ (fun x hx => hnorm x hx)

theorem compactRecords_mem (records : List SessionRecord) (v : Int) (x : SessionRecord)
    (hx : x ∈ compactRecords records v) :
    ∃ r, x = normalizeRecordForSchema r v ∧ (r.deleted.getD false) = false ∧
      lastWith records r.id = some r := by
  simp only [compactRecords, List.mem_map, List.mem_filter] at hx
  obtain ⟨r, ⟨hrv, hlive⟩, rfl⟩ := hx
  obtain ⟨kv, hkv, rfl⟩ := hrv
  have hid := latestByIdMap_id_inv records [] (by simp) kv hkv
  have hlast : lastWith records kv.2.id = some kv.2 := by
    rw [hid]
    exact (latestByIdMap_mem_iff records kv.1 kv.2).mp (by rwa [Prod.mk.eta])
  exact ⟨kv.2, rfl, by simpa using hlive, hlast⟩

theorem compactRecords_pairwise (records : List SessionRecord) (v : Int) :
    (compactRecords records v).Pairwise (fun a b => a.id ≠ b.id) := by
  have hkeys := latestByIdMap_keys_nodup records [] (by simp)
  have hkp : (latestByIdMap records []).Pairwise (fun a b => ¬(a.1 = b.1)) :=
    List.pairwise_map.mp hkeys
  have hvals : (latestByIdMap records []).Pairwise (fun a b => ¬(a.2.id = b.2.id)) := by
    refine hkp.imp_of_mem ?_
    intro a b ha hb hne he
    have hia := latestByIdMap_id_inv records [] (by simp) a ha
    have hib := latestByIdMap_id_inv records [] (by simp) b hb
    exact hne (by rw [← hia, ← hib, he])
  have hmap : (((latestByIdMap records []).map (fun kv => kv.2)).Pairwise
      (fun a b => ¬(a.id = b.id))) := List.pairwise_map.mpr hvals
  have hfil := hmap.filter (fun r => !(r.deleted.getD false))
  refine List.pairwise_map.mpr (hfil.imp_of_mem ?_)
  intro a b _ _ hne he
  exact hne (by rw [← normalize_id a v, ← normalize_id b v, he])

theorem compactRecords_idem (records : List SessionRecord) (v : Int) :
    compactRecords (compactRecords records v) v = compactRecords records v := by
  refine compactRecords_fixed _ v (compactRecords_pairwise records v) ?_ ?_
  · intro r hr
    obtain ⟨r0, rfl, hlive, -⟩ := compactRecords_mem records v r hr
    rw [normalize_deleted, hlive]
  · intro r hr
    obtain ⟨r0, rfl, -, -⟩ := compactRecords_mem records v r hr
    exact normalizeSchema_idem r0 v

/-- C6: compaction reads the log, keeps only the last physical
occurrence per id, discards tombstoned survivors, renormalizes for the
schema and rewrites the log, reporting `before`/`after`/`removed` with
`after ≤ before` and `removed = before − after` (first conjunct);
every live last occurrence survives, normalized (second conjunct — no
live id disappears); everything in the output is the normalization of
some live last occurrence (third conjunct — only last occurrences are
kept, tombstones are dropped); compaction is idempotent on record lists
(fourth conjunct) and re-running `compactSessions` over its own output
changes no file and reports `removed = 0` (fifth conjunct). -/
theorem C6_compaction :
    (∀ (now : String) (s : Store) (C : String) (st : SchemaState) (records : List SessionRecord),
      s.sessions = some (sessionsContent records) → s.schemaState = some C →
      parseSchemaStateContent C = .ok st → (∀ r ∈ records, recordPlain r = true) →
      (compactSessions now s).1 = writeSessionsFile (compactRecords records st.schemaVersion) s ∧
      (compactSessions now s).2 = .ok
        { before := records.length,
          after := (compactRecords records st.schemaVersion).length,
          removed := records.length - (compactRecords records st.schemaVersion).length } ∧
      (compactRecords records st.schemaVersion).length ≤ records.length) ∧
    (∀ (records : List SessionRecord) (v : Int) (k : String) (r : SessionRecord),
      lastWith records k = some r → (r.deleted.getD false) = false →
      normalizeRecordForSchema r v ∈ compactRecords records v) ∧
    (∀ (records : List SessionRecord) (v : Int) (x : SessionRecord),
      x ∈ compactRecords records v →
      ∃ r, x = normalizeRecordForSchema r v ∧ (r.deleted.getD false) = false ∧
        lastWith records r.id = some r) ∧
    (∀ (records : List SessionRecord) (v : Int),
      compactRecords (compactRecords records v) v = compactRecords records v) ∧
    (∀ (now now2 : String) (s : Store) (C : String) (st : SchemaState)
        (records : List SessionRecord),
      s.sessions = some (sessionsContent records) → s.schemaState = some C →
      parseSchemaStateContent C = .ok st → st.schemaVersion = 2 →
      (∀ r ∈ records, recordPlain r = true) →
      compactSessions now2 (compactSessions now s).1 =
        ((compactSessions now s).1,
         .ok { before := (compactRecords records 2).length,
               after := (compactRecords records 2).length,
               removed := 0 })) := by
  refine ⟨?_, ?_, ?_, fun records v => compactRecords_idem records v, ?_⟩
  · intro now s C st records hsess hC hparse hplain
    have hens := ensure_id now s (by simp [hC]) (by simp [hsess])
    have hst : readSchemaState s = .ok st := by simp [readSchemaState, hC, hparse]
    have hread : readSessionRecordsStore s = .ok records := by
      simp [readSessionRecordsStore, hsess, parseSessionsContent_print _ hplain]
    refine ⟨?_, ?_, compactRecords_length_le records st.schemaVersion⟩
    · simp only [compactSessions, hens, hst, hread]
    · simp only [compactSessions, hens, hst, hread]
  · intro records v k r hlast hlive
    have hmem : (k, r) ∈ latestByIdMap records [] := (latestByIdMap_mem_iff records k r).mpr hlast
    simp only [compactRecords, List.mem_map, List.mem_filter]
    exact ⟨r, ⟨⟨(k, r), hmem, rfl⟩, by simp [hlive]⟩, rfl⟩
  · exact fun records v x hx => compactRecords_mem records v x hx
  · intro now now2 s C st records hsess hC hparse hv2 hplain
    have hens := ensure_id now s (by simp [hC]) (by simp [hsess])
    have hst : readSchemaState s = .ok st := by simp [readSchemaState, hC, hparse]
    have hread : readSessionRecordsStore s = .ok records := by
      simp [readSessionRecordsStore, hsess, parseSessionsContent_print _ hplain]
    have h1 : (compactSessions now s).1 =
        writeSessionsFile (compactRecords records st.schemaVersion) s := by
      simp only [compactSessions, hens, hst, hread]
    rw [h1, hv2]
    have houtplain : ∀ x ∈ compactRecords records 2, recordPlain x = true := by
      intro x hx
      obtain ⟨r0, rfl, -, hlast⟩ := compactRecords_mem records 2 x hx
      exact recordPlain_normalize r0 (hplain r0 (lastWith_mem records r0.id r0 hlast))
    have hens2 : ensureStorageInitialized now2 (writeSessionsFile (compactRecords records 2) s) =
        writeSessionsFile (compactRecords records 2) s := by
      apply ensure_id
      · simp [writeSessionsFile, hC]
      · simp [writeSessionsFile]
    have hst2 : readSchemaState (writeSessionsFile (compactRecords records 2) s) = .ok st := by
      simp [readSchemaState, writeSessionsFile, hC, hparse]
    have hread2 : readSessionRecordsStore (writeSessionsFile (compactRecords records 2) s) =
        .ok (compactRecords records 2) := by
      simp [readSessionRecordsStore, writeSessionsFile, parseSessionsContent_print _ houtplain]
    simp only [compactSessions, hens2, hst2, hread2, hv2]
    rw [compactRecords_idem records 2]
    simp [writeSessionsFile, Nat.sub_self]

def c6State : SchemaState := createReadyState 2 "2026-02-11T00:00:00.000Z"

def c6recA1 : SessionRecord :=
  { id := "a", updatedAt := "t1", payload := .num 1, deleted := none, checksum := none }

def c6recB : SessionRecord :=
  { id := "b", updatedAt := "t1", payload := .num 7, deleted := some true, checksum := none }

def c6recA2 : SessionRecord :=
  { id := "a", updatedAt := "t2", payload := .num 2, deleted := none, checksum := none }

def c6recs : List SessionRecord := [c6recA1, c6recB, c6recA2]

def c6Store : Store :=
  { sessions := some (sessionsContent c6recs),
    schemaState := some (schemaStateContent c6State), backup := none, stateWrites := [] }

theorem C6_witness :
    ((compactSessions "T" c6Store).2 = .ok
      { before := c6recs.length,
        after := (compactRecords c6recs c6State.schemaVersion).length,
        removed := c6recs.length - (compactRecords c6recs c6State.schemaVersion).length }) ∧
    normalizeRecordForSchema c6recA2 2 ∈ compactRecords c6recs 2 ∧
    compactSessions "U" (compactSessions "T" c6Store).1 =
      ((compactSessions "T" c6Store).1,
       .ok { before := (compactRecords c6recs 2).length,
             after := (compactRecords c6recs 2).length, removed := 0 }) :=
  ⟨(C6_compaction.1 "T" c6Store (schemaStateContent c6State) c6State c6recs
      rfl rfl (by rfl) (by decide)).2.1,
   C6_compaction.2.1 c6recs 2 "a" c6recA2 (by rfl) (by rfl),
   C6_compaction.2.2.2.2 "T" "U" c6Store (schemaStateContent c6State) c6State c6recs
     rfl rfl (by rfl) rfl (by decide)⟩

/-! ## The single v1-to-v2 migration step -/

theorem runMigrationsTail_v1_v2 (root now : String) (opts : MigrationRunOptions)
    (recovered : Bool) (s : Store) (records : List SessionRecord) (st1 : SchemaState)
    (hsess : s.sessions = some (sessionsContent records))
    (hplain : ∀ r ∈ records, recordPlain r = true)
    (htv : opts.targetVersion.getD CURRENT_SCHEMA_VERSION = 2)
    (hint : opts.interruptAfterStateWrite = false)
    (hv : st1.schemaVersion = 1) :
    runMigrationsTail (getStoragePaths root) now opts recovered st1 s =
      (deleteFileAt (getStoragePaths root)
         (writeSchemaStateFile (createReadyState 2 now)
           (writeSessionsFile (records.map (normalizeRecordForSchema · 2))
             (backupSessions
               (writeSchemaStateFile (activeStateFor (getStoragePaths root) now 1) s))))
         (getStoragePaths root).backupFile,
       .ok { status := "migrated", fromVersion := 1, toVersion := 2,
             recovered := recovered, applied := ["v1-to-v2"] }) := by
  have hrd : readSessionRecordsStore
      (backupSessions (writeSchemaStateFile (activeStateFor (getStoragePaths root) now 1) s)) =
      .ok records := by
    simp [readSessionRecordsStore, backupSessions, writeSchemaStateFile, hsess,
      parseSessionsContent_print _ hplain]
  simp only [runMigrationsTail]
  rw [if_neg (by rw [hv, htv]; decide)]
  rw [htv, hv, hint]
  rw [show ((2 : Int) - 1).toNat = 1 by decide]
  simp only [runMigrationSteps]
  rw [show MIGRATIONS (migrationIdChars 1 (1 + 1)) = some migrationV1toV2 from by
    rw [show (1 : Int) + 1 = 2 by decide, migrationIdChars_1_2]; rfl]
  simp only [Bool.false_eq_true, if_false]
  simp only [show (1 : Int) + 1 = 2 from by decide, migrationIdChars_1_2, activeStateFor]
  simp only [migrationV1toV2]
  simp only [activeStateFor, show (1 : Int) + 1 = 2 from by decide, migrationIdChars_1_2] at hrd
  simp only [hrd]
  simp only [runMigrationSteps, List.nil_append, List.isEmpty_cons, Bool.false_eq_true, if_false]

theorem runMigrations_interrupt_eq (root now : String) (opts : MigrationRunOptions) (s : Store)
    (C : String) (st0 : SchemaState)
    (hsessSome : s.sessions.isSome = true) (hC : s.schemaState = some C)
    (hparse : parseSchemaStateContent C = .ok st0)
    (hready : st0.status = .ready) (hver : st0.schemaVersion = 1)
    (htv : opts.targetVersion.getD CURRENT_SCHEMA_VERSION = 2)
    (hint : opts.interruptAfterStateWrite = true) :
    runMigrations opts now root s =
      (backupSessions (writeSchemaStateFile (activeStateFor (getStoragePaths root) now 1) s),
       .error .migrationFailed) := by
  have hens := ensure_id now s (by simp [hC]) hsessSome
  have hread : readSchemaState s = .ok st0 := by simp [readSchemaState, hC, hparse]
  have hin : ¬(opts.targetVersion.getD CURRENT_SCHEMA_VERSION > CURRENT_SCHEMA_VERSION ∨
      opts.targetVersion.getD CURRENT_SCHEMA_VERSION < 1) := by
    rw [htv]; decide
  have hmig : ¬(st0.status = SchemaStateStatus.migrating) := by rw [hready]; decide
  have hdg : ¬(st0.schemaVersion > opts.targetVersion.getD CURRENT_SCHEMA_VERSION) := by
    rw [hver, htv]; decide
  simp only [runMigrations, hens, hread]
  rw [if_neg hin, if_neg hmig]
  simp only [runMigrationsTail]
  rw [if_neg hdg, htv, hver, hint]
  rw [show ((2 : Int) - 1).toNat = 1 by decide]
  simp only [runMigrationSteps]
  rw [show MIGRATIONS (migrationIdChars 1 (1 + 1)) = some migrationV1toV2 from by
    rw [show (1 : Int) + 1 = 2 by decide, migrationIdChars_1_2]; rfl]
  simp only [if_true, activeStateFor]

/-- C2: for a READY version-1 store, injecting a failure immediately
after the durability-barrier state write and then calling
`runMigrations` again restores the session log from the backup
verbatim, resets the state to READY at the pre-migration version 1,
deletes the backup, redoes the step with `recovered = true`, and the
three on-disk files end up byte-identical to those of an uninterrupted
run performed at the same clock. -/
theorem C2_crash_safety
    (root t1 t2 : String) (s : Store) (C : String) (st0 : SchemaState)
    (records : List SessionRecord)
    (hsess : s.sessions = some (sessionsContent records))
    (hC : s.schemaState = some C) (hparse : parseSchemaStateContent C = .ok st0)
    (hready : st0.status = .ready) (hver : st0.schemaVersion = 1)
    (hplain : ∀ r ∈ records, recordPlain r = true)
    (ht1 : plainStr t1 = true) (ht2 : plainStr t2 = true) (hroot : plainStr root = true) :
    (runMigrations { interruptAfterStateWrite := true } t1 root s).2 = .error .migrationFailed ∧
    ((recoverInterruptedMigration (getStoragePaths root)
        (activeStateFor (getStoragePaths root) t1 1) t2
        (runMigrations { interruptAfterStateWrite := true } t1 root s).1).1.sessions =
          s.sessions ∧
     readSchemaState (recoverInterruptedMigration (getStoragePaths root)
        (activeStateFor (getStoragePaths root) t1 1) t2
        (runMigrations { interruptAfterStateWrite := true } t1 root s).1).1 =
          .ok (createReadyState 1 t2) ∧
     (recoverInterruptedMigration (getStoragePaths root)
        (activeStateFor (getStoragePaths root) t1 1) t2
        (runMigrations { interruptAfterStateWrite := true } t1 root s).1).1.backup = none ∧
     (recoverInterruptedMigration (getStoragePaths root)
        (activeStateFor (getStoragePaths root) t1 1) t2
        (runMigrations { interruptAfterStateWrite := true } t1 root s).1).2 = .ok ()) ∧
    (runMigrations {} t2 root
        (runMigrations { interruptAfterStateWrite := true } t1 root s).1).2 =
      .ok { status := "migrated", fromVersion := 1, toVersion := 2,
            recovered := true, applied := ["v1-to-v2"] } ∧
    (runMigrations {} t2 root s).2 =
      .ok { status := "migrated", fromVersion := 1, toVersion := 2,
            recovered := false, applied := ["v1-to-v2"] } ∧
    ((runMigrations {} t2 root
        (runMigrations { interruptAfterStateWrite := true } t1 root s).1).1.sessions =
      (runMigrations {} t2 root s).1.sessions ∧
     (runMigrations {} t2 root
        (runMigrations { interruptAfterStateWrite := true } t1 root s).1).1.schemaState =
      (runMigrations {} t2 root s).1.schemaState ∧
     (runMigrations {} t2 root
        (runMigrations { interruptAfterStateWrite := true } t1 root s).1).1.backup =
      (runMigrations {} t2 root s).1.backup) := by
  have hfirst := runMigrations_interrupt_eq root t1 { interruptAfterStateWrite := true } s C st0
    (by simp [hsess]) hC hparse hready hver rfl rfl
  have hfst1 : (runMigrations { interruptAfterStateWrite := true } t1 root s).1 =
      backupSessions (writeSchemaStateFile (activeStateFor (getStoragePaths root) t1 1) s) := by
    rw [hfirst]
  have hbackup1 : ∀ (st' : SchemaState),
      (backupSessions (writeSchemaStateFile st' s)).backup = some (sessionsContent records) := by
    intro st'
    simp [backupSessions, writeSchemaStateFile, hsess]
  have hrec : recoverInterruptedMigration (getStoragePaths root)
      (activeStateFor (getStoragePaths root) t1 1) t2
      (backupSessions (writeSchemaStateFile (activeStateFor (getStoragePaths root) t1 1) s)) =
      (deleteFileAt (getStoragePaths root)
        (writeSchemaStateFile (createReadyState 1 t2)
          (writeFileAt (getStoragePaths root)
            (backupSessions
              (writeSchemaStateFile (activeStateFor (getStoragePaths root) t1 1) s))
            (getStoragePaths root).sessionsFile (sessionsContent records)))
        (getStoragePaths root).backupFile,
       .ok ()) := by
    simp only [recoverInterruptedMigration, activeStateFor]
    rw [fileContentAt_backup root]
    rw [show (backupSessions (writeSchemaStateFile
        { schemaVersion := (1 : Int), status := .migrating, targetVersion := some (1 + 1),
          migrationId := some (migrationIdChars 1 (1 + 1)),
          backupPath := some (getStoragePaths root).backupFile, updatedAt := t1 } s)).backup =
        some (sessionsContent records) from hbackup1 _]
  have hA1plain := activeStateFor_plain root t1 ht1 hroot
  have hS1state : readSchemaState
      (backupSessions (writeSchemaStateFile (activeStateFor (getStoragePaths root) t1 1) s)) =
      .ok (activeStateFor (getStoragePaths root) t1 1) := by
    simp [readSchemaState, backupSessions, writeSchemaStateFile,
      parseSchemaStateContent_print _ hA1plain]
  have hR3sess : (deleteFileAt (getStoragePaths root)
      (writeSchemaStateFile (createReadyState 1 t2)
        (writeFileAt (getStoragePaths root)
          (backupSessions (writeSchemaStateFile (activeStateFor (getStoragePaths root) t1 1) s))
          (getStoragePaths root).sessionsFile (sessionsContent records)))
      (getStoragePaths root).backupFile).sessions = some (sessionsContent records) := by
    rw [deleteFileAt_backup, writeFileAt_sessions]
    rfl
  have hR3state : readSchemaState (deleteFileAt (getStoragePaths root)
      (writeSchemaStateFile (createReadyState 1 t2)
        (writeFileAt (getStoragePaths root)
          (backupSessions (writeSchemaStateFile (activeStateFor (getStoragePaths root) t1 1) s))
          (getStoragePaths root).sessionsFile (sessionsContent records)))
      (getStoragePaths root).backupFile) = .ok (createReadyState 1 t2) := by
    rw [deleteFileAt_backup]
    simp [readSchemaState, writeSchemaStateFile,
      parseSchemaStateContent_print _ (readyState_plain 1 t2 ht2)]
  have hrerun : runMigrations {} t2 root
      (backupSessions (writeSchemaStateFile (activeStateFor (getStoragePaths root) t1 1) s)) =
      (deleteFileAt (getStoragePaths root)
         (writeSchemaStateFile (createReadyState 2 t2)
           (writeSessionsFile (records.map (normalizeRecordForSchema · 2))
             (backupSessions
               (writeSchemaStateFile (activeStateFor (getStoragePaths root) t2 1)
                 (deleteFileAt (getStoragePaths root)
                   (writeSchemaStateFile (createReadyState 1 t2)
                     (writeFileAt (getStoragePaths root)
                       (backupSessions
                         (writeSchemaStateFile (activeStateFor (getStoragePaths root) t1 1) s))
                       (getStoragePaths root).sessionsFile (sessionsContent records)))
                   (getStoragePaths root).backupFile)))))
         (getStoragePaths root).backupFile,
       .ok { status := "migrated", fromVersion := 1, toVersion := 2,
             recovered := true, applied := ["v1-to-v2"] }) := by
    have hensS1 : ensureStorageInitialized t2
        (backupSessions (writeSchemaStateFile (activeStateFor (getStoragePaths root) t1 1) s)) =
        backupSessions (writeSchemaStateFile (activeStateFor (getStoragePaths root) t1 1) s) :=
      ensure_id t2 _ (by simp [backupSessions, writeSchemaStateFile])
        (by simp [backupSessions, writeSchemaStateFile, hsess])
    simp only [runMigrations, hensS1, hS1state]
    rw [if_neg (by decide),
      if_pos (show (activeStateFor (getStoragePaths root) t1 1).status = .migrating from rfl),
      hrec]
    simp only [hR3state]
    exact runMigrationsTail_v1_v2 root t2 {} true _ records (createReadyState 1 t2)
      hR3sess hplain rfl rfl rfl
  have hens := ensure_id t2 s (by simp [hC]) (by simp [hsess])
  have hread : readSchemaState s = .ok st0 := by simp [readSchemaState, hC, hparse]
  have hclean : runMigrations {} t2 root s =
      (deleteFileAt (getStoragePaths root)
         (writeSchemaStateFile (createReadyState 2 t2)
           (writeSessionsFile (records.map (normalizeRecordForSchema · 2))
             (backupSessions
               (writeSchemaStateFile (activeStateFor (getStoragePaths root) t2 1) s))))
         (getStoragePaths root).backupFile,
       .ok { status := "migrated", fromVersion := 1, toVersion := 2,
             recovered := false, applied := ["v1-to-v2"] }) := by
    simp only [runMigrations, hens, hread]
    rw [if_neg (by decide), if_neg (by rw [hready]; decide)]
    exact runMigrationsTail_v1_v2 root t2 {} false s records st0 hsess hplain rfl rfl hver
  have hfields : ∀ (x : Store),
      (deleteFileAt (getStoragePaths root)
        (writeSchemaStateFile (createReadyState 2 t2)
          (writeSessionsFile (records.map (normalizeRecordForSchema · 2))
            (backupSessions (writeSchemaStateFile (activeStateFor (getStoragePaths root) t2 1) x))))
        (getStoragePaths root).backupFile).sessions =
          some (sessionsContent (records.map (normalizeRecordForSchema · 2))) ∧
      (deleteFileAt (getStoragePaths root)
        (writeSchemaStateFile (createReadyState 2 t2)
          (writeSessionsFile (records.map (normalizeRecordForSchema · 2))
            (backupSessions (writeSchemaStateFile (activeStateFor (getStoragePaths root) t2 1) x))))
        (getStoragePaths root).backupFile).schemaState =
          some (schemaStateContent (createReadyState 2 t2)) ∧
      (deleteFileAt (getStoragePaths root)
        (writeSchemaStateFile (createReadyState 2 t2)
          (writeSessionsFile (records.map (normalizeRecordForSchema · 2))
            (backupSessions (writeSchemaStateFile (activeStateFor (getStoragePaths root) t2 1) x))))
        (getStoragePaths root).backupFile).backup = none := by
    intro x
    rw [deleteFileAt_backup]
    exact ⟨rfl, rfl, rfl⟩
  refine ⟨by rw [hfirst], ⟨?_, ?_, ?_, ?_⟩, ?_, ?_, ?_, ?_, ?_⟩
  · rw [hfst1, hrec, hR3sess, hsess]
  · rw [hfst1, hrec]
    exact hR3state
  · rw [hfst1, hrec, deleteFileAt_backup]
  · rw [hfst1, hrec]
  · rw [hfst1, hrerun]
  · rw [hclean]
  · rw [hfst1, hrerun, hclean]
    exact ((hfields _).1).trans ((hfields s).1).symm
  · rw [hfst1, hrerun, hclean]
    exact ((hfields _).2.1).trans ((hfields s).2.1).symm
  · rw [hfst1, hrerun, hclean]
    exact ((hfields _).2.2).trans ((hfields s).2.2).symm

def c2State : SchemaState := createReadyState 1 "2026-02-11T00:00:00.000Z"

def c2rec : SessionRecord :=
  { id := "s1", updatedAt := "2026-01-01T00:00:00.000Z",
    payload := .obj [("topic", .str "alpha")], deleted := none, checksum := none }

def c2Store : Store :=
  { sessions := some (sessionsContent [c2rec]),
    schemaState := some (schemaStateContent c2State), backup := none, stateWrites := [] }

theorem C2_witness :
    (runMigrations { interruptAfterStateWrite := true } "T1" "/r" c2Store).2 =
      .error .migrationFailed ∧
    ((recoverInterruptedMigration (getStoragePaths "/r")
        (activeStateFor (getStoragePaths "/r") "T1" 1) "T2"
        (runMigrations { interruptAfterStateWrite := true } "T1" "/r" c2Store).1).1.sessions =
          c2Store.sessions ∧
     readSchemaState (recoverInterruptedMigration (getStoragePaths "/r")
        (activeStateFor (getStoragePaths "/r") "T1" 1) "T2"
        (runMigrations { interruptAfterStateWrite := true } "T1" "/r" c2Store).1).1 =
          .ok (createReadyState 1 "T2") ∧
     (recoverInterruptedMigration (getStoragePaths "/r")
        (activeStateFor (getStoragePaths "/r") "T1" 1) "T2"
        (runMigrations { interruptAfterStateWrite := true } "T1" "/r" c2Store).1).1.backup =
          none ∧
     (recoverInterruptedMigration (getStoragePaths "/r")
        (activeStateFor (getStoragePaths "/r") "T1" 1) "T2"
        (runMigrations { interruptAfterStateWrite := true } "T1" "/r" c2Store).1).2 = .ok ()) ∧
    (runMigrations {} "T2" "/r"
        (runMigrations { interruptAfterStateWrite := true } "T1" "/r" c2Store).1).2 =
      .ok { status := "migrated", fromVersion := 1, toVersion := 2,
            recovered := true, applied := ["v1-to-v2"] } ∧
    (runMigrations {} "T2" "/r" c2Store).2 =
      .ok { status := "migrated", fromVersion := 1, toVersion := 2,
            recovered := false, applied := ["v1-to-v2"] } ∧
    ((runMigrations {} "T2" "/r"
        (runMigrations { interruptAfterStateWrite := true } "T1" "/r" c2Store).1).1.sessions =
      (runMigrations {} "T2" "/r" c2Store).1.sessions ∧
     (runMigrations {} "T2" "/r"
        (runMigrations { interruptAfterStateWrite := true } "T1" "/r" c2Store).1).1.schemaState =
      (runMigrations {} "T2" "/r" c2Store).1.schemaState ∧
     (runMigrations {} "T2" "/r"
        (runMigrations { interruptAfterStateWrite := true } "T1" "/r" c2Store).1).1.backup =
      (runMigrations {} "T2" "/r" c2Store).1.backup) :=
  C2_crash_safety "/r" "T1" "T2" c2Store (schemaStateContent c2State) c2State [c2rec]
    rfl rfl (by rfl) rfl rfl (by decide) (by decide) (by decide) (by decide)
